import Mathlib

/-!
# Stackless coroutines of `coro.h`, and the example coroutines of `examples.c`

A shallow embedding of the macros and functions of `coro.h` and of the
coroutine functions of `examples.c`.

* A `co_ctx_t` is the caller-owned wrapper `struct __co_ctx_s`.  Its `__ctx`
  pointer is either `NULL` or owns one heap block (`struct __co_ctx_inner_s`
  followed by the locals of the coroutine); the block is kept inside the value,
  tagged with the address `malloc` returned for it.
* Everything the program does to the outside is appended to `World.trace`:
  calls of `malloc` and `free`, calls of a destructor, and printed lines.
* A coroutine function takes the context pointer (`none` is `NULL`) and the
  world, and gives back a `Res`: the returned value with the updated context
  and world, or `abort`, or `undefined` where C leaves the behaviour undefined.
-/

namespace Coro

/-- The six coroutine functions of `examples.c`. -/
inductive Fn where
  | coroutine
  | void_coroutine
  | parametrized_coroutine
  | custom_dtor_coroutine
  | nesting_coroutine
  | state_machine_coroutine
deriving DecidableEq, Repr

/-- A label address, the value stored in `__ptr`.  `begin f` is `&&__begin` of
function `f` (pasted by `co_init`); `yield n` is `&&__n`, the label pasted by
the `co_yield` at which `__COUNTER__` had the value `n`.  In `examples.c` the
`co_yield` sites are numbered in textual order: `__0` in `coroutine`, `__1` in
`void_coroutine`, `__2` in `parametrized_coroutine`, `__3` and `__4` in
`nesting_coroutine`, `__5` to `__8` in `state_machine_coroutine`. -/
inductive Label where
  | begin (f : Fn)
  | yield (n : Nat)
deriving DecidableEq, Repr

/-- A value of type `co_destructor_t`: the function a destructor pointer points
to.  `custom_dtor` is the destructor of `examples.c`; `user id` stands for any
other function `void f(void *)`, whose body is not part of the repository and
of which only the call is recorded. -/
inductive co_destructor_t where
  | custom_dtor
  | user (id : Nat)
deriving DecidableEq, Repr

/-- The user area `__user` of a block, read through the `co_ctx` declarations
of `examples.c`: `i` is the field of `co_ctx { int i; }`, `ptr` the field of
`co_ctx { void *ptr; }` (`none` is `NULL`, `some a` the address `a`).
`co_ctx {}` reads neither. -/
structure Locals where
  i : Int
  ptr : Option Nat
deriving DecidableEq, Repr

/-- The wrapper `struct __co_ctx_s` (`co_ctx_t`).  `null` is a wrapper whose
`__ctx` is `NULL`; `block addr nested user` is a wrapper whose `__ctx` points
to the `struct __co_ctx_inner_s` allocated at `addr`, holding `__nested` and
`__user`.  Both carry `__ptr` (`none` is `NULL`) and `__dtor`. -/
inductive co_ctx_t where
  | null (ptr : Option Label) (dtor : Option co_destructor_t)
  | block (addr : Nat) (nested : co_ctx_t) (user : Locals)
      (ptr : Option Label) (dtor : Option co_destructor_t)
deriving DecidableEq, Repr

/-- The field `__ptr`. -/
def co_ctx_t.ptr : co_ctx_t → Option Label
  | .null p _ => p
  | .block _ _ _ p _ => p

/-- The field `__dtor`. -/
def co_ctx_t.dtor : co_ctx_t → Option co_destructor_t
  | .null _ d => d
  | .block _ _ _ _ d => d

/-- What the program does to the outside, in the order it happens. -/
inductive Event where
  | malloc (addr : Nat)
  | free (addr : Nat)
  | dtor (d : co_destructor_t) (addr : Nat)
  | printf (line : String)
deriving DecidableEq, Repr

/-- The state outside the context: `next` is the address the next `malloc`
returns (allocation is assumed to succeed), `junk a` is what the fresh block at
address `a` contains before anything is written to it (`malloc` does not clear
memory), `trace` is the list of events so far. -/
structure World where
  next : Nat
  junk : Nat → Locals
  trace : List Event

/-- Append one event to the trace. -/
def World.emit (w : World) (e : Event) : World :=
  { w with trace := w.trace ++ [e] }

/-- `malloc`: the block at `w.next` is handed out. -/
def World.malloc (w : World) : World :=
  { w with next := w.next + 1, trace := w.trace ++ [.malloc w.next] }

/-- `free(p)`: nothing for `NULL`, otherwise the release of the block at `p`. -/
def World.free (w : World) : Option Nat → World
  | none => w
  | some a => w.emit (.free a)

/-- `co_new_ctx` is `(co_ctx_t) { 0 }`: all three fields are `NULL`. -/
def co_new_ctx : co_ctx_t := .null none none

/-- `co_is_running(ctx)`: `ctx != NULL && ctx->__ctx != NULL`. -/
def co_is_running : Option co_ctx_t → Bool
  | none => false
  | some (.null _ _) => false
  | some (.block _ _ _ _ _) => true

/-- The destructor `custom_dtor` of `examples.c`, called with a pointer to the
locals (`none` is `NULL`, on which `co_init_dtor` returns at once): it prints a
line and calls `free(ctx->ptr)`. -/
def custom_dtor (user_ctx : Option Locals) (w : World) : World :=
  match user_ctx with
  | none => w
  | some ctx => (w.emit (.printf "Running custom destructor")).free ctx.ptr

/-- The call `ctx->__dtor(&ctx->__ctx->__user)` for the block at `addr`: the
call is recorded, then the body of the destructor runs. -/
def call_dtor (d : co_destructor_t) (addr : Nat) (user : Locals) (w : World) : World :=
  match d with
  | .custom_dtor => custom_dtor (some user) (w.emit (.dtor .custom_dtor addr))
  | .user id => w.emit (.dtor (.user id) addr)

/-- `co_free(ctx)` for a pointer `ctx` that is not `NULL`: returns at once when
`ctx->__ctx` is `NULL`; otherwise frees `&ctx->__ctx->__nested`, calls the
destructor if `__dtor` is not `NULL`, frees the block and sets `__ctx` to
`NULL`.  `__ptr` and `__dtor` are left as they are. -/
def co_free_ctx : co_ctx_t → World → co_ctx_t × World
  | .null p d, w => (.null p d, w)
  | .block addr nested user p d, w =>
    let w1 := (co_free_ctx nested w).2
    let w2 := match d with
      | none => w1
      | some f => call_dtor f addr user w1
    (.null p d, w2.emit (.free addr))

/-- `co_free(ctx)`: returns at once when `ctx` is `NULL`. -/
def co_free : Option co_ctx_t → World → Option co_ctx_t × World
  | none, w => (none, w)
  | some c, w => (some (co_free_ctx c w).1, (co_free_ctx c w).2)

/-- The outcome of calling a coroutine function. -/
inductive Res (α : Type) where
  /-- the call returned `v`; the context and the world are now `c` and `w` -/
  | ret (v : α) (c : co_ctx_t) (w : World)
  /-- the call ended in `abort()` -/
  | abort (w : World)
  /-- C leaves the behaviour undefined (a jump to a label of another function
  or to `NULL`, a signed overflow) -/
  | undefined

/-- The value returned, if the call returned. -/
def Res.value {α : Type} : Res α → Option α
  | .ret v _ _ => some v
  | _ => none

/-- The context after the call, if the call returned. -/
def Res.ctx {α : Type} : Res α → Option co_ctx_t
  | .ret _ c _ => some c
  | _ => none

/-- The trace after the call (empty when the behaviour is undefined). -/
def Res.trace {α : Type} : Res α → List Event
  | .ret _ _ w => w.trace
  | .abort w => w.trace
  | .undefined => []

/-- What `co_init` leaves in scope once the block exists: the block (`addr`,
`nested`, `user`; `ctx` of the source points to `user`) and the two wrapper
fields `ptr`, `dtor`.  `subctx` of the source is the copy `nested`. -/
structure Frame where
  addr : Nat
  nested : co_ctx_t
  user : Locals
  ptr : Option Label
  dtor : Option co_destructor_t

/-- The wrapper `*__ctx` as the frame describes it. -/
def Frame.toCtx (fr : Frame) : co_ctx_t :=
  .block fr.addr fr.nested fr.user fr.ptr fr.dtor

/-- `co_init` in function `f`, up to the `goto`: `none` when `__ctx == NULL`
(`abort()`); when `__ctx->__ctx == NULL` a block is allocated, its `__nested`
set to `co_new_ctx`, `__ptr` to `&&__begin` and `__dtor` to `NULL` (the locals
are what `malloc` left there); otherwise the saved state is used as it is. -/
def co_init (f : Fn) (ctx : Option co_ctx_t) (w : World) : Option (Frame × World) :=
  match ctx with
  | none => none
  | some (.null _ _) =>
    some ({ addr := w.next, nested := co_new_ctx, user := w.junk w.next,
            ptr := some (.begin f), dtor := none }, w.malloc)
  | some (.block addr nested user p d) =>
    some ({ addr := addr, nested := nested, user := user, ptr := p, dtor := d }, w)

/-- `co_yield(v)`: `__ctx->__ptr = &&label; return v;`. -/
def co_yield {α : Type} (label : Nat) (v : α) (fr : Frame) (w : World) : Res α :=
  .ret v ({ fr with ptr := some (.yield label) }).toCtx w

/-- `co_return(v)`: `co_free(__ctx); return v;`. -/
def co_return {α : Type} (v : α) (fr : Frame) (w : World) : Res α :=
  .ret v (co_free_ctx fr.toCtx w).1 (co_free_ctx fr.toCtx w).2

/-- The largest `int`. -/
def INT_MAX : Int := 2147483647

/-- The smallest `int`. -/
def INT_MIN : Int := -2147483648

/-- The sum of two `int`s; `none` when it overflows (undefined in C). -/
def int_add (a b : Int) : Option Int :=
  if INT_MIN ≤ a + b ∧ a + b ≤ INT_MAX then some (a + b) else none

/-- The loop of `coroutine` from its test `ctx->i < 10` on: the body yields
`ctx->i`; after the loop comes `co_return (-1)`. -/
def coroutine_loop (fr : Frame) (w : World) : Res Int :=
  if fr.user.i < 10 then co_yield 0 fr.user.i fr w
  else co_return (-1) fr w

/-- `int coroutine(co_ctx_param)`. -/
def coroutine (ctx : Option co_ctx_t) (w : World) : Res Int :=
  match co_init .coroutine ctx w with
  | none => .abort w
  | some (fr, w1) =>
    match fr.ptr with
    | some (.begin .coroutine) =>
      -- `ctx->i = 0`, then the loop test
      coroutine_loop { fr with user := { fr.user with i := 0 } } w1
    | some (.yield 0) =>
      -- after the `co_yield`: `++ctx->i`, then the loop test
      match int_add fr.user.i 1 with
      | none => .undefined
      | some i1 => coroutine_loop { fr with user := { fr.user with i := i1 } } w1
    | _ => .undefined

/-- The loop of `void_coroutine` from its test `ctx->i < 10` on: the body
prints `ctx->i` and yields; after the loop comes `co_return ()`. -/
def void_coroutine_loop (fr : Frame) (w : World) : Res Unit :=
  if fr.user.i < 10 then
    co_yield 1 () fr (w.emit (.printf ("void_coroutine: " ++ toString fr.user.i)))
  else co_return () fr w

/-- `void void_coroutine(co_ctx_param)`. -/
def void_coroutine (ctx : Option co_ctx_t) (w : World) : Res Unit :=
  match co_init .void_coroutine ctx w with
  | none => .abort w
  | some (fr, w1) =>
    match fr.ptr with
    | some (.begin .void_coroutine) =>
      void_coroutine_loop { fr with user := { fr.user with i := 0 } } w1
    | some (.yield 1) =>
      match int_add fr.user.i 1 with
      | none => .undefined
      | some i1 => void_coroutine_loop { fr with user := { fr.user with i := i1 } } w1
    | _ => .undefined

/-- The loop of `parametrized_coroutine` from its test `ctx->i < 10` on: the
body yields `ctx->i + offset`; after the loop comes `co_return (-1)`. -/
def parametrized_coroutine_loop (offset : Int) (fr : Frame) (w : World) : Res Int :=
  if fr.user.i < 10 then
    match int_add fr.user.i offset with
    | none => .undefined
    | some v => co_yield 2 v fr w
  else co_return (-1) fr w

/-- `int parametrized_coroutine(co_ctx_param, int offset)`. -/
def parametrized_coroutine (ctx : Option co_ctx_t) (offset : Int) (w : World) : Res Int :=
  match co_init .parametrized_coroutine ctx w with
  | none => .abort w
  | some (fr, w1) =>
    match fr.ptr with
    | some (.begin .parametrized_coroutine) =>
      parametrized_coroutine_loop offset { fr with user := { fr.user with i := 0 } } w1
    | some (.yield 2) =>
      match int_add fr.user.i 1 with
      | none => .undefined
      | some i1 =>
        parametrized_coroutine_loop offset { fr with user := { fr.user with i := i1 } } w1
    | _ => .undefined

/-- `co_destructor(fn)`: `__ctx->__dtor = &(fn)`. -/
def co_destructor (fn : co_destructor_t) (fr : Frame) : Frame :=
  { fr with dtor := some fn }

/-- `void custom_dtor_coroutine(co_ctx_param)`: `ctx->ptr = malloc(1)`, then
`co_destructor(custom_dtor)`, then `co_return ()`. -/
def custom_dtor_coroutine (ctx : Option co_ctx_t) (w : World) : Res Unit :=
  match co_init .custom_dtor_coroutine ctx w with
  | none => .abort w
  | some (fr, w1) =>
    match fr.ptr with
    | some (.begin .custom_dtor_coroutine) =>
      co_return ()
        (co_destructor .custom_dtor { fr with user := { fr.user with ptr := some w1.next } })
        w1.malloc
    | _ => .undefined

/-- The body of either `do ... while` loop of `nesting_coroutine`:
`void_coroutine(&subctx); co_yield ();`.  `subctx` is a variable of the call:
what `void_coroutine` leaves in it is gone when the `co_yield` returns. -/
def nesting_coroutine_body (label : Nat) (subctx : co_ctx_t) (fr : Frame) (w : World) :
    Res Unit :=
  match void_coroutine (some subctx) w with
  | .ret _ _ w1 => co_yield label () fr w1
  | .abort w1 => .abort w1
  | .undefined => .undefined

/-- `void nesting_coroutine(co_ctx_param)`.  On every call `co_init` sets
`subctx = __ctx->__ctx->__nested` before the `goto`, and no statement stores
`subctx` back into the block.  (Were the stored `__nested` active, the C copy
would point to the same inner block as the stored one; here every wrapper owns
its block, so the inner call would run on a copy of that block.) -/
def nesting_coroutine (ctx : Option co_ctx_t) (w : World) : Res Unit :=
  match co_init .nesting_coroutine ctx w with
  | none => .abort w
  | some (fr, w1) =>
    let subctx := fr.nested
    match fr.ptr with
    | some (.begin .nesting_coroutine) =>
      nesting_coroutine_body 3 subctx fr (w1.emit (.printf "First nested coroutine"))
    | some (.yield 3) =>
      -- `while (co_is_running(&subctx))` of the first loop
      if co_is_running (some subctx) then nesting_coroutine_body 3 subctx fr w1
      else nesting_coroutine_body 4 subctx fr (w1.emit (.printf "Second nested coroutine"))
    | some (.yield 4) =>
      -- `while (co_is_running(&subctx))` of the second loop
      if co_is_running (some subctx) then nesting_coroutine_body 4 subctx fr w1
      else co_return () fr w1
    | _ => .undefined

/-- `void state_machine(int *state, int event)`: the new `*state` and world. -/
def state_machine (state : Int) (event : Int) (w : World) : Int × World :=
  if state = 0 then (1, w.emit (.printf "State 0"))
  else if state = 1 then (2, w.emit (.printf "State 1"))
  else if state = 2 then
    (if event = 0 then 1 else 3, w.emit (.printf ("State 2; event: " ++ toString event)))
  else if state = 3 then (0, w.emit (.printf "State 3"))
  else (state, w)

/-- The top of the `for (;;)` loop of `state_machine_coroutine`. -/
def state_machine_coroutine_loop (fr : Frame) (w : World) : Res Unit :=
  co_yield 6 () fr (w.emit (.printf "State 1"))

/-- `void state_machine_coroutine(co_ctx_param, int event)`. -/
def state_machine_coroutine (ctx : Option co_ctx_t) (event : Int) (w : World) : Res Unit :=
  match co_init .state_machine_coroutine ctx w with
  | none => .abort w
  | some (fr, w1) =>
    match fr.ptr with
    | some (.begin .state_machine_coroutine) =>
      co_yield 5 () fr (w1.emit (.printf "State 0"))
    | some (.yield 5) => state_machine_coroutine_loop fr w1
    | some (.yield 6) =>
      let w2 := w1.emit (.printf ("State 2; event: " ++ toString event))
      if event ≠ 0 then co_yield 7 () fr w2 else co_yield 8 () fr w2
    | some (.yield 7) =>
      -- `break`, then the code after the loop
      co_return () fr (w1.emit (.printf "State 3"))
    | some (.yield 8) => state_machine_coroutine_loop fr w1
    | _ => .undefined

/-- The same outcome with the returned value passed through `g`. -/
def Res.mapValue {α β : Type} (g : α → β) : Res α → Res β
  | .ret v c w => .ret (g v) c w
  | .abort w => .abort w
  | .undefined => .undefined

/-- The call `f(ctx)`, or `f(ctx, arg)` for the two functions that take an
`int`; the value is `none` for the functions that return `void`. -/
def resume (f : Fn) (arg : Int) (ctx : Option co_ctx_t) (w : World) : Res (Option Int) :=
  match f with
  | .coroutine => (coroutine ctx w).mapValue some
  | .void_coroutine => (void_coroutine ctx w).mapValue (fun _ => none)
  | .parametrized_coroutine => (parametrized_coroutine ctx arg w).mapValue some
  | .custom_dtor_coroutine => (custom_dtor_coroutine ctx w).mapValue (fun _ => none)
  | .nesting_coroutine => (nesting_coroutine ctx w).mapValue (fun _ => none)
  | .state_machine_coroutine => (state_machine_coroutine ctx arg w).mapValue (fun _ => none)

/-- A world in which nothing has happened yet: the next block is at `0`, fresh
memory holds `junk`. -/
def World.init (junk : Nat → Locals) : World :=
  { next := 0, junk := junk, trace := [] }

/-- Consecutive calls of a coroutine function on one context: the value each
call returned, paired with `co_is_running` right after that call; `none` as
soon as a call does not return. -/
def resumptions {α : Type} (f : Option co_ctx_t → World → Res α) :
    Nat → co_ctx_t → World → Option (List (α × Bool) × co_ctx_t × World)
  | 0, c, w => some ([], c, w)
  | n + 1, c, w =>
    match f (some c) w with
    | .ret v c1 w1 =>
      match resumptions f n c1 w1 with
      | some (l, c2, w2) => some ((v, co_is_running (some c1)) :: l, c2, w2)
      | none => none
    | _ => none

/-- The addresses of the blocks a context owns, its own block first, then those
of the chain of nested contexts. -/
def co_ctx_t.addrs : co_ctx_t → List Nat
  | .null _ _ => []
  | .block addr nested _ _ _ => addr :: nested.addrs

/-- The events of one destructor call, as `call_dtor` appends them. -/
def call_dtor_events (d : co_destructor_t) (addr : Nat) (user : Locals) : List Event :=
  match d with
  | .custom_dtor =>
    [.dtor .custom_dtor addr, .printf "Running custom destructor"] ++
      (match user.ptr with
       | none => []
       | some a => [.free a])
  | .user id => [.dtor (.user id) addr]

/-- The events of `co_free` on a context, as `co_free_ctx` appends them. -/
def co_free_events : co_ctx_t → List Event
  | .null _ _ => []
  | .block addr nested user _ d =>
    co_free_events nested ++
      (match d with
       | none => []
       | some f => call_dtor_events f addr user) ++ [.free addr]

/-- `co_free` called `n` more times on the context a first `co_free` left. -/
def co_free_again : Nat → co_ctx_t × World → co_ctx_t × World
  | 0, s => s
  | n + 1, s => co_free_again n (co_free_ctx s.1 s.2)

/-- Whether an event is a call of the destructor `d`, on whatever block. -/
def Event.isCallOf (d : co_destructor_t) : Event → Bool
  | .dtor f _ => decide (f = d)
  | _ => false

/-- The loop `do { f(&ctx); } while (co_is_running(&ctx));` of `main`, with at
most `fuel` calls: the context and world when the loop ends, `none` when a call
does not return or the fuel runs out first. -/
def drive {α : Type} (f : Option co_ctx_t → World → Res α) :
    Nat → co_ctx_t → World → Option (co_ctx_t × World)
  | 0, _, _ => none
  | fuel + 1, c, w =>
    match f (some c) w with
    | .ret _ c1 w1 => if co_is_running (some c1) then drive f fuel c1 w1 else some (c1, w1)
    | _ => none

/-- The printed lines of a trace, in order. -/
def printed : List Event → List String
  | [] => []
  | .printf line :: es => line :: printed es
  | _ :: es => printed es

/-- The state of a context on which `coroutine` has been resumed `k` times
since it was last inactive (`k ≤ 10`): inactive for `k = 0`, otherwise suspended
at the `co_yield` (`__0`) with `ctx->i = k - 1`. -/
def coroutine_at (k : Nat) : co_ctx_t → Prop
  | .null _ _ => k = 0
  | .block _ _ user p _ => 1 ≤ k ∧ k ≤ 10 ∧ user.i = (k : Int) - 1 ∧ p = some (.yield 0)

/-- Whether a call ended in `abort()`. -/
def Res.isAbort {α : Type} : Res α → Bool
  | .abort _ => true
  | _ => false

/-- The blocks a context owns, outermost first: for each its address, its
locals and the destructor registered in the wrapper that points to it. -/
def co_ctx_t.chain : co_ctx_t → List (Nat × Locals × Option co_destructor_t)
  | .null _ _ => []
  | .block addr nested user _ d => (addr, user, d) :: nested.chain

/-- Disposal of one block as the specification words it: the destructor, if
one is registered, is called on the locals of the block, then the block is
released. -/
def spec_dispose_block (b : Nat × Locals × Option co_destructor_t) : List Event :=
  (match b.2.2 with
   | none => []
   | some f => call_dtor_events f b.1 b.2.1) ++ [.free b.1]

/-- Disposal of a context as the specification words it: the blocks of the
chain are disposed one after the other, innermost first. -/
def spec_dispose (c : co_ctx_t) : List Event :=
  (c.chain.reverse.map spec_dispose_block).flatten

/-- The destructor registrations of a context, outermost first: each
registered destructor with the address of the block it is registered for. -/
def co_ctx_t.registered (c : co_ctx_t) : List (co_destructor_t × Nat) :=
  c.chain.filterMap fun b => b.2.2.map fun f => (f, b.1)

/-- The destructor call an event records, if it is one. -/
def Event.dtorCall : Event → Option (co_destructor_t × Nat)
  | .dtor f a => some (f, a)
  | _ => none

/-- One operation of a caller on its context: a call of one of the coroutine
functions (with the `int` argument, for the two that take one), `co_free`, or
`co_is_running`. -/
inductive Op where
  | resume (f : Fn) (arg : Int)
  | free
  | is_running
deriving DecidableEq, Repr

/-- What the caller sees of one operation: the value a coroutine call returned
(`none` for `void`), that it ended in `abort()`, that its behaviour is
undefined, or the answer of `co_is_running`. -/
inductive Obs where
  | returned (v : Option Int)
  | aborted
  | undefined
  | running (b : Bool)
deriving DecidableEq, Repr

/-- A sequence of operations on one context: what the caller sees, and the
trace at the end.  The run stops at a call that does not return. -/
def run : List Op → co_ctx_t → World → List Obs × List Event
  | [], _, w => ([], w.trace)
  | .resume f arg :: ops, c, w =>
    match resume f arg (some c) w with
    | .ret v c1 w1 => (.returned v :: (run ops c1 w1).1, (run ops c1 w1).2)
    | .abort w1 => ([.aborted], w1.trace)
    | .undefined => ([.undefined], w.trace)
  | .free :: ops, c, w => run ops (co_free_ctx c w).1 (co_free_ctx c w).2
  | .is_running :: ops, c, w =>
    (.running (co_is_running (some c)) :: (run ops c w).1, (run ops c w).2)

/-- The numbers of the `co_yield` labels in the body of each function of
`examples.c` (`custom_dtor_coroutine` has no `co_yield`). -/
def yield_sites : Fn → List Nat
  | .coroutine => [0]
  | .void_coroutine => [1]
  | .parametrized_coroutine => [2]
  | .custom_dtor_coroutine => []
  | .nesting_coroutine => [3, 4]
  | .state_machine_coroutine => [5, 6, 7, 8]

/-- The labels in the body of a function: `__begin` and its `co_yield` labels. -/
def labels (f : Fn) : List Label :=
  .begin f :: (yield_sites f).map .yield

/-- A context that is inactive, or whose block has an empty stored `__nested`
and whose wrapper has no destructor registered. -/
def co_ctx_t.tidy : co_ctx_t → Prop
  | .null _ _ => True
  | .block _ nested _ _ d => nested = co_new_ctx ∧ d = none

/-- A context that is inactive, or suspended at one of the `co_yield` labels of
`f` with an empty stored `__nested` and no destructor registered. -/
def suspended_in (f : Fn) : co_ctx_t → Prop
  | .null _ _ => True
  | .block _ nested _ p d =>
    nested = co_new_ctx ∧ d = none ∧ ∃ n, n ∈ yield_sites f ∧ p = some (.yield n)

/-- One operation on a context: the context and world afterwards, `none` when a
coroutine call does not return. -/
def step (op : Op) (c : co_ctx_t) (w : World) : Option (co_ctx_t × World) :=
  match op with
  | .resume f arg =>
    match resume f arg (some c) w with
    | .ret _ c1 w1 => some (c1, w1)
    | _ => none
  | .free => some (co_free_ctx c w)
  | .is_running => some (c, w)

/-- The context and world after a sequence of operations, `none` when one of
the coroutine calls does not return. -/
def after : List Op → co_ctx_t → World → Option (co_ctx_t × World)
  | [], c, w => some (c, w)
  | op :: ops, c, w =>
    match step op c w with
    | some (c1, w1) => after ops c1 w1
    | none => none

/-- The destructor calls of a trace, in order. -/
def dtor_calls (es : List Event) : List (co_destructor_t × Nat) :=
  es.filterMap Event.dtorCall

/-- Consecutive calls of `parametrized_coroutine` on one context, one for each
offset of the list: the value each call returned, paired with `co_is_running`
right after that call; `none` as soon as a call does not return. -/
def parametrized_resumptions :
    List Int → co_ctx_t → World → Option (List (Int × Bool) × co_ctx_t × World)
  | [], c, w => some ([], c, w)
  | o :: os, c, w =>
    match parametrized_coroutine (some c) o w with
    | .ret v c1 w1 =>
      match parametrized_resumptions os c1 w1 with
      | some (l, c2, w2) => some ((v, co_is_running (some c1)) :: l, c2, w2)
      | none => none
    | _ => none

/-- The state of a context on which `parametrized_coroutine` has been resumed
`k` times since it was last inactive (`k ≤ 10`): inactive for `k = 0`,
otherwise suspended at the `co_yield` (`__2`) with `ctx->i = k - 1`. -/
def parametrized_at (k : Nat) : co_ctx_t → Prop
  | .null _ _ => k = 0
  | .block _ _ user p _ => 1 ≤ k ∧ k ≤ 10 ∧ user.i = (k : Int) - 1 ∧ p = some (.yield 2)

/-- A call that returned with context `c1` ended at a `co_yield`: `c1` is what
`co_yield` at some label leaves of some frame. -/
def ended_at_yield (c1 : co_ctx_t) : Prop :=
  ∃ (n : Nat) (fr : Frame), c1 = ({ fr with ptr := some (.yield n) } : Frame).toCtx

/-- A call that returned with context `c1` and world `w1` ended at a
`co_return`: they are what `co_free(__ctx)` leaves of some frame and world. -/
def ended_at_return (c1 : co_ctx_t) (w1 : World) : Prop :=
  ∃ (fr : Frame) (w0 : World), c1 = (co_free_ctx fr.toCtx w0).1 ∧ w1 = (co_free_ctx fr.toCtx w0).2

/-- Calls of `state_machine`, one for each event of the list, on one `state`
variable: after each call whether `*state` is 0, and the world at the end. -/
def state_machine_run : List Int → Int → World → List Bool × World
  | [], _, w => ([], w)
  | e :: es, s, w =>
    (decide ((state_machine s e w).1 = 0) ::
        (state_machine_run es (state_machine s e w).1 (state_machine s e w).2).1,
      (state_machine_run es (state_machine s e w).1 (state_machine s e w).2).2)

/-- Calls of `state_machine_coroutine`, one for each event of the list, on one
context: after each call whether the context is inactive, and the world at the
end; `none` as soon as a call does not return. -/
def state_machine_coroutine_run : List Int → co_ctx_t → World → Option (List Bool × World)
  | [], _, w => some ([], w)
  | e :: es, c, w =>
    match state_machine_coroutine (some c) e w with
    | .ret _ c1 w1 =>
      match state_machine_coroutine_run es c1 w1 with
      | some (l, w2) => some ((!co_is_running (some c1)) :: l, w2)
      | none => none
    | _ => none

/-- The states of the two state machines that correspond: `*state` is 0 for an
inactive context, 1 for a context suspended after "State 0" (`__5`) or at the
end of the loop body (`__8`), 2 for one suspended after "State 1" (`__6`), 3 for
one suspended before the `break` (`__7`). -/
def state_machine_sim (s : Int) : co_ctx_t → Prop
  | .null _ _ => s = 0
  | .block _ nested _ p d =>
    nested = co_new_ctx ∧ d = none ∧
      ((s = 1 ∧ (p = some (.yield 5) ∨ p = some (.yield 8))) ∨
        (s = 2 ∧ p = some (.yield 6)) ∨ (s = 3 ∧ p = some (.yield 7)))

/-- Two contexts that agree in everything a later operation reads: both are
inactive, or both are suspended at the same `co_yield` label `__n` in a block
at the same address, with an empty stored `__nested` and no destructor, and
with the same `ctx->i` when the label belongs to one of the three functions
that declare the counter (`__0`, `__1`, `__2`).  The other contents of the
locals may differ. -/
def same_but_junk : co_ctx_t → co_ctx_t → Prop
  | .null _ _, .null _ _ => True
  | .block a1 n1 u1 p1 d1, .block a2 n2 u2 p2 d2 =>
    a1 = a2 ∧ n1 = co_new_ctx ∧ n2 = co_new_ctx ∧ d1 = none ∧ d2 = none ∧
      ∃ n, p1 = some (.yield n) ∧ p2 = some (.yield n) ∧ (n ≤ 2 → u1.i = u2.i)
  | _, _ => False

/-- Two worlds that differ at most in what fresh memory holds. -/
def same_world (w1 w2 : World) : Prop :=
  w1.next = w2.next ∧ w1.trace = w2.trace

/-- Two outcomes that agree: both undefined, both `abort()` with the same
trace, or both a return of the same value with contexts and worlds that
agree. -/
def Res.same {α : Type} : Res α → Res α → Prop
  | .ret v1 c1 w1, .ret v2 c2 w2 => v1 = v2 ∧ same_but_junk c1 c2 ∧ same_world w1 w2
  | .abort w1, .abort w2 => w1.trace = w2.trace
  | .undefined, .undefined => True
  | _, _ => False

/-- The state of a context on which `void_coroutine` has been resumed `k` times
since it was last inactive (`k ≤ 10`): inactive for `k = 0`, otherwise
suspended at the `co_yield` (`__1`) with `ctx->i = k - 1`. -/
def void_at (k : Nat) : co_ctx_t → Prop
  | .null _ _ => k = 0
  | .block _ _ user p _ => 1 ≤ k ∧ k ≤ 10 ∧ user.i = (k : Int) - 1 ∧ p = some (.yield 1)

/-- The contexts on which a call of `f` finds what its body left: for the three
counting coroutines the counter is the number of calls so far less one, for
`custom_dtor_coroutine` the context is inactive, for `nesting_coroutine` it is
suspended at one of its labels, for `state_machine_coroutine` it corresponds to
a state of `state_machine`. -/
def ready (f : Fn) (c : co_ctx_t) : Prop :=
  match f with
  | .coroutine => ∃ k, k ≤ 10 ∧ coroutine_at k c
  | .void_coroutine => ∃ k, k ≤ 10 ∧ void_at k c
  | .parametrized_coroutine => ∃ k, k ≤ 10 ∧ parametrized_at k c
  | .custom_dtor_coroutine => co_is_running (some c) = false
  | .nesting_coroutine => suspended_in .nesting_coroutine c
  | .state_machine_coroutine => ∃ s, state_machine_sim s c

/-! ## Properties -/

theorem call_dtor_eq (d : co_destructor_t) (addr : Nat) (user : Locals) (w : World) :
    call_dtor d addr user w = { w with trace := w.trace ++ call_dtor_events d addr user } := by
  cases d with
  | custom_dtor =>
    cases hp : user.ptr <;>
      simp [call_dtor, custom_dtor, call_dtor_events, World.emit, World.free, hp]
  | user id => simp [call_dtor, call_dtor_events, World.emit]

theorem co_free_ctx_eq (c : co_ctx_t) (w : World) :
    co_free_ctx c w =
      (.null c.ptr c.dtor, { w with trace := w.trace ++ co_free_events c }) := by
  induction c generalizing w with
  | null p d => simp [co_free_ctx, co_free_events, co_ctx_t.ptr, co_ctx_t.dtor]
  | block addr nested user p d ih =>
    cases d with
    | none =>
      simp [co_free_ctx, co_free_events, co_ctx_t.ptr, co_ctx_t.dtor, ih, World.emit]
    | some f =>
      simp [co_free_ctx, co_free_events, co_ctx_t.ptr, co_ctx_t.dtor, ih, World.emit,
        call_dtor_eq]

theorem co_free_ctx_null (p : Option Label) (d : Option co_destructor_t) (w : World) :
    co_free_ctx (.null p d) w = (.null p d, w) := rfl

theorem co_free_again_null (n : Nat) (p : Option Label) (d : Option co_destructor_t)
    (w : World) : co_free_again n (.null p d, w) = (.null p d, w) := by
  induction n with
  | zero => rfl
  | succ k ih => simpa [co_free_again, co_free_ctx_null] using ih

theorem dtor_mem_call_dtor_events {d f : co_destructor_t} {a addr : Nat} {user : Locals}
    (h : Event.dtor d a ∈ call_dtor_events f addr user) : a = addr ∧ d = f := by
  cases f with
  | custom_dtor =>
    cases hp : user.ptr <;> simp [call_dtor_events, hp] at h <;> simp [h]
  | user id => simp [call_dtor_events] at h; simp [h]

theorem dtor_mem_co_free_events {d : co_destructor_t} {a : Nat} {c : co_ctx_t}
    (h : Event.dtor d a ∈ co_free_events c) : a ∈ c.addrs := by
  induction c with
  | null p f => simp [co_free_events] at h
  | block addr nested user p f ih =>
    simp only [co_free_events, List.mem_append, List.mem_singleton] at h
    rcases h with (h | h) | h
    · simp [co_ctx_t.addrs, ih h]
    · cases f with
      | none => simp at h
      | some g => simp [co_ctx_t.addrs, (dtor_mem_call_dtor_events h).1]
    · cases h

theorem count_call_dtor_events (d : co_destructor_t) (addr : Nat) (user : Locals) :
    (call_dtor_events d addr user).count (.dtor d addr) = 1 := by
  cases d with
  | custom_dtor =>
    cases hp : user.ptr <;> simp [call_dtor_events, hp, List.count_cons]
  | user id => simp [call_dtor_events]

/-- C1. Eleven consecutive resumptions of `coroutine` on a fresh context, in
any world, return 0, 1, ..., 9, -1 in that order; `co_is_running` is true after
each of the first ten and false after the eleventh. -/
theorem coroutine_sequential_replay (w : World) :
    (resumptions coroutine 11 co_new_ctx w).map (fun r => r.1) =
      some [(0, true), (1, true), (2, true), (3, true), (4, true), (5, true),
            (6, true), (7, true), (8, true), (9, true), (-1, false)] := by
  rfl

/-- C2. For every `k` from 1 to 10: after `k` resumptions of `coroutine` on a
fresh context the context is active and one more resumption would return `k`
(or -1 for `k = 10`); after `co_free` it is inactive, the next resumption
returns 0 and leaves it active, and eleven resumptions replay 0, ..., 9, -1 as
on a fresh context. -/
theorem coroutine_cancel_resets (w : World) (k : Nat) (h1 : 1 ≤ k) (h10 : k ≤ 10) :
    ∃ l c w1, resumptions coroutine k co_new_ctx w = some (l, c, w1) ∧
      co_is_running (some c) = true ∧
      (coroutine (some c) w1).value = some (if k < 10 then (k : Int) else -1) ∧
      co_is_running (co_free (some c) w1).1 = false ∧
      (coroutine (co_free (some c) w1).1 (co_free (some c) w1).2).value = some 0 ∧
      co_is_running (coroutine (co_free (some c) w1).1 (co_free (some c) w1).2).ctx = true ∧
      (resumptions coroutine 11 (co_free_ctx c w1).1 (co_free_ctx c w1).2).map (fun r => r.1) =
        (resumptions coroutine 11 co_new_ctx w).map (fun r => r.1) := by
  interval_cases k <;> exact ⟨_, _, _, rfl, rfl, rfl, rfl, rfl, rfl, rfl⟩

theorem coroutine_cancel_resets_witness :
    (1 ≤ 3 ∧ 3 ≤ 10) ∧ ∃ l c w1, resumptions coroutine 3 co_new_ctx (World.init fun _ => ⟨7, none⟩) =
        some (l, c, w1) ∧
      co_is_running (some c) = true ∧
      (coroutine (some c) w1).value = some (if 3 < 10 then ((3 : Nat) : Int) else -1) ∧
      co_is_running (co_free (some c) w1).1 = false ∧
      (coroutine (co_free (some c) w1).1 (co_free (some c) w1).2).value = some 0 ∧
      co_is_running (coroutine (co_free (some c) w1).1 (co_free (some c) w1).2).ctx = true ∧
      (resumptions coroutine 11 (co_free_ctx c w1).1 (co_free_ctx c w1).2).map (fun r => r.1) =
        (resumptions coroutine 11 co_new_ctx (World.init fun _ => ⟨7, none⟩)).map
          (fun r => r.1) :=
  ⟨by decide, coroutine_cancel_resets (World.init fun _ => ⟨7, none⟩) 3 (by decide) (by decide)⟩

/-- C3. `co_free` on an active context with a registered destructor `d` (whose
block is not also a block of its nested chain) calls `d` on that block exactly
once, and any number of further `co_free` calls change nothing, so they call it
zero more times.  One resumption of `custom_dtor_coroutine` on a fresh context
ends inactive with exactly one call of `custom_dtor`, and a following `co_free`
changes nothing. -/
theorem co_free_destructor_exactly_once (addr : Nat) (nested : co_ctx_t) (user : Locals)
    (p : Option Label) (d : co_destructor_t) (w : World) (h : addr ∉ nested.addrs) :
    (co_free_ctx (.block addr nested user p (some d)) w).2.trace.count (.dtor d addr) =
        w.trace.count (.dtor d addr) + 1 ∧
      (∀ n, co_free_again n (co_free_ctx (.block addr nested user p (some d)) w) =
        co_free_ctx (.block addr nested user p (some d)) w) ∧
      ∀ w0 : World, ∃ c1 w1 es,
        custom_dtor_coroutine (some co_new_ctx) w0 = .ret () c1 w1 ∧
        co_is_running (some c1) = false ∧
        w1.trace = w0.trace ++ es ∧
        es = [.malloc w0.next, .malloc (w0.next + 1), .dtor .custom_dtor w0.next,
              .printf "Running custom destructor", .free (w0.next + 1), .free w0.next] ∧
        es.countP (Event.isCallOf .custom_dtor) = 1 ∧
        co_free_ctx c1 w1 = (c1, w1) := by
  refine ⟨?_, ?_, ?_⟩
  · have h0 : (co_free_events nested).count (.dtor d addr) = 0 :=
      List.count_eq_zero.mpr fun hm => h (dtor_mem_co_free_events hm)
    simp [co_free_ctx_eq, co_free_events, h0, count_call_dtor_events]
  · intro n
    rw [co_free_ctx_eq]
    exact co_free_again_null n _ _ _
  · intro w0
    refine ⟨_, _, _, rfl, rfl, ?_, rfl, rfl, rfl⟩
    simp [World.malloc, World.emit, World.free, custom_dtor, call_dtor, co_free_ctx,
      Frame.toCtx, co_destructor, co_init]

theorem co_free_destructor_exactly_once_witness :
    (0 ∉ (co_ctx_t.block 1 co_new_ctx ⟨0, none⟩ none (some (.user 5))).addrs) ∧
      ((co_free_ctx (.block 0 (.block 1 co_new_ctx ⟨0, none⟩ none (some (.user 5)))
          ⟨0, none⟩ none (some (.user 5))) (World.init fun _ => ⟨0, none⟩)).2.trace.count
            (.dtor (.user 5) 0) =
          (World.init fun _ => ⟨0, none⟩).trace.count (.dtor (.user 5) 0) + 1) :=
  ⟨by decide,
    (co_free_destructor_exactly_once 0 (.block 1 co_new_ctx ⟨0, none⟩ none (some (.user 5)))
      ⟨0, none⟩ none (.user 5) (World.init fun _ => ⟨0, none⟩) (by decide)).1⟩

/-- C4. What the code does where the claim expects the inner coroutine to be
exhausted twice: driven from a fresh context until `co_is_running` is false,
`nesting_coroutine` ends after three calls and the printed lines are "First
nested coroutine", "void_coroutine: 0", "Second nested coroutine",
"void_coroutine: 0"; the lines "void_coroutine: 1" to "void_coroutine: 9" never
appear. -/
theorem nesting_coroutine_prints_inner_once (junk : Nat → Locals) (n : Nat) :
    (drive nesting_coroutine (n + 3) co_new_ctx (World.init junk)).map
        (fun r => printed r.2.trace) =
      some ["First nested coroutine", "void_coroutine: 0",
            "Second nested coroutine", "void_coroutine: 0"] ∧
      (drive nesting_coroutine 2 co_new_ctx (World.init junk)).isNone = true ∧
      (resumptions nesting_coroutine 3 co_new_ctx (World.init junk)).map (fun r => r.1) =
        some [((), true), ((), true), ((), false)] :=
  ⟨rfl, rfl, rfl⟩

/-- C5. What the code does where the claim expects the suspended inner
coroutine to be disposed with the outer one: after the first resumption of
`nesting_coroutine` on a fresh context the inner block (address 1) has been
allocated, but the nested context stored in the outer block is still
`co_new_ctx`; `co_free` on the outer context then releases the outer block
(address 0) only, and the inner block is never released. -/
theorem nesting_coroutine_free_leaves_inner (junk : Nat → Locals) :
    ∃ c1 w1, nesting_coroutine (some co_new_ctx) (World.init junk) = .ret () c1 w1 ∧
      c1 = .block 0 co_new_ctx (junk 0) (some (.yield 3)) none ∧
      w1.trace = [.malloc 0, .printf "First nested coroutine", .malloc 1,
                  .printf "void_coroutine: 0"] ∧
      (co_free_ctx c1 w1).2.trace = w1.trace ++ [.free 0] ∧
      Event.free 1 ∉ (co_free_ctx c1 w1).2.trace := by
  refine ⟨_, _, rfl, rfl, rfl, rfl, ?_⟩
  show Event.free 1 ∉ [Event.malloc 0, .printf "First nested coroutine", .malloc 1,
    .printf "void_coroutine: 0", .free 0]
  decide

/-- C6. `co_free` on an inactive context, or on `NULL`, gives back the same
context and the same world (no event, so no destructor call), and it always
returns; for every context, `co_free` twice gives the same context and world as
`co_free` once, and that context is inactive. -/
theorem co_free_idempotent (c : Option co_ctx_t) (w : World) :
    (co_is_running c = false → co_free c w = (c, w)) ∧
      co_free none w = (none, w) ∧
      co_is_running (co_free c w).1 = false ∧
      co_free (co_free c w).1 (co_free c w).2 = co_free c w := by
  cases c with
  | none => exact ⟨fun _ => rfl, rfl, rfl, rfl⟩
  | some c =>
    cases c with
    | null p d => exact ⟨fun _ => rfl, rfl, rfl, rfl⟩
    | block addr nested user p d =>
      refine ⟨fun h => ?_, rfl, ?_, ?_⟩
      · simp [co_is_running] at h
      · simp [co_free, co_free_ctx_eq, co_is_running]
      · simp [co_free, co_free_ctx_eq, co_free_events, co_ctx_t.ptr, co_ctx_t.dtor]

theorem co_free_idempotent_witness :
    co_is_running (some (.null (some (.yield 0)) (some .custom_dtor))) = false ∧
      co_free (some (.null (some (.yield 0)) (some .custom_dtor))) (World.init fun _ => ⟨0, none⟩) =
        (some (.null (some (.yield 0)) (some .custom_dtor)), World.init fun _ => ⟨0, none⟩) :=
  ⟨rfl, (co_free_idempotent (some (.null (some (.yield 0)) (some .custom_dtor)))
    (World.init fun _ => ⟨0, none⟩)).1 rfl⟩

theorem coroutine_step (k : Nat) (c : co_ctx_t) (w : World) (hc : coroutine_at k c)
    (hk : k ≤ 10) :
    ∃ c1 w1, coroutine (some c) w = .ret (if k < 10 then (k : Int) else -1) c1 w1 ∧
      coroutine_at ((k + 1) % 11) c1 ∧ co_is_running (some c1) = decide (k ≠ 10) := by
  cases c with
  | null p d =>
    have h0 : k = 0 := hc
    subst h0
    exact ⟨_, _, rfl, ⟨by decide, by decide, rfl, rfl⟩, rfl⟩
  | block addr nested user p d =>
    obtain ⟨h1, _, hi, hp⟩ := hc
    have hadd : int_add user.i 1 = some (k : Int) := by
      unfold int_add INT_MIN INT_MAX
      rw [if_pos (by omega)]
      congr 1
      omega
    by_cases hlt : k < 10
    · have hlt2 : (k : Int) < 10 := by omega
      refine ⟨.block addr nested { user with i := (k : Int) } (some (.yield 0)) d, w, ?_, ?_, ?_⟩
      · simp [coroutine, co_init, hp, hadd, coroutine_loop, hlt, hlt2, co_yield, Frame.toCtx]
      · rw [Nat.mod_eq_of_lt (by omega)]
        exact ⟨by omega, by omega, by push_cast; omega, rfl⟩
      · have : k ≠ 10 := by omega
        simp [co_is_running, this]
    · have h10 : k = 10 := by omega
      subst h10
      refine ⟨(co_free_ctx (.block addr nested { user with i := 10 } (some (.yield 0)) d) w).1,
        (co_free_ctx (.block addr nested { user with i := 10 } (some (.yield 0)) d) w).2,
        ?_, ?_, ?_⟩
      · simp [coroutine, co_init, hp, hadd, coroutine_loop, co_return, Frame.toCtx]
      · simp [co_free_ctx_eq, coroutine_at]
      · simp [co_free_ctx_eq, co_is_running]

theorem coroutine_at_running (k : Nat) (c : co_ctx_t) (hc : coroutine_at k c) :
    co_is_running (some c) = false ↔ k = 0 := by
  cases c with
  | null p d => exact ⟨fun _ => hc, fun _ => rfl⟩
  | block addr nested user p d =>
    obtain ⟨h1, _⟩ := hc
    constructor
    · intro h
      simp [co_is_running] at h
    · intro h
      omega

theorem coroutine_resumptions (m k : Nat) (c : co_ctx_t) (w : World)
    (hc : coroutine_at k c) (hk : k ≤ 10) :
    ∃ c1 w1, resumptions coroutine m c w =
      some ((List.range m).map (fun j =>
        (if (k + j) % 11 < 10 then (((k + j) % 11 : Nat) : Int) else -1,
          decide ((k + j) % 11 ≠ 10))), c1, w1) ∧ coroutine_at ((k + m) % 11) c1 := by
  induction m generalizing k c w with
  | zero =>
    refine ⟨c, w, rfl, ?_⟩
    rw [Nat.add_zero, Nat.mod_eq_of_lt (by omega)]
    exact hc
  | succ m ih =>
    obtain ⟨c1, w1, hstep, hat, hrun⟩ := coroutine_step k c w hc hk
    obtain ⟨c2, w2, h2, hat2⟩ := ih ((k + 1) % 11) c1 w1 hat (by omega)
    refine ⟨c2, w2, ?_, ?_⟩
    · have hk11 : k % 11 = k := Nat.mod_eq_of_lt (by omega)
      have htail : ∀ j, ((k + 1) % 11 + j) % 11 = (k + (j + 1)) % 11 := fun j => by omega
      simp only [resumptions, hstep, h2, hrun, List.range_succ_eq_map, List.map_cons,
        List.map_map, Function.comp_def, htail, Nat.add_zero, hk11, Nat.succ_eq_add_one]
    · have : ((k + 1) % 11 + m) % 11 = (k + (m + 1)) % 11 := by omega
      rw [← this]
      exact hat2

/-- C7. For every `n`, `n + 1` consecutive resumptions of `coroutine` on a
fresh context all return, the one numbered `j` (from 0) returning `j mod 11`
when `j mod 11 < 10` and -1 when `j mod 11 = 10`, with the context inactive
right afterwards exactly when `j mod 11 = 10`; so does the last one, numbered
`n`.  After twelve resumptions the trace shows a first block allocated and
released and a second block allocated, on which the twelfth returned 0. -/
theorem coroutine_auto_restart (w : World) (n : Nat) :
    (∃ l c1 w1, resumptions coroutine (n + 1) co_new_ctx w = some (l, c1, w1) ∧
      l = (List.range (n + 1)).map (fun j =>
        (if j % 11 < 10 then ((j % 11 : Nat) : Int) else -1, decide (j % 11 ≠ 10))) ∧
      l.getLast? =
        some (if n % 11 < 10 then ((n % 11 : Nat) : Int) else -1, decide (n % 11 ≠ 10)) ∧
      (co_is_running (some c1) = false ↔ n % 11 = 10)) ∧
    ∃ l c1 w1, resumptions coroutine 12 co_new_ctx w = some (l, c1, w1) ∧
      l.getLast? = some (0, true) ∧
      c1 = .block (w.next + 1) co_new_ctx { w.junk (w.next + 1) with i := 0 }
        (some (.yield 0)) none ∧
      w1.trace = w.trace ++ [.malloc w.next, .free w.next, .malloc (w.next + 1)] := by
  constructor
  · obtain ⟨c1, w1, h, hat⟩ := coroutine_resumptions (n + 1) 0 co_new_ctx w rfl (by omega)
    refine ⟨_, c1, w1, h, ?_, ?_, ?_⟩
    · simp only [Nat.zero_add]
    · simp only [Nat.zero_add]
      rw [List.range_succ, List.map_append, List.map_singleton, List.getLast?_concat]
    · rw [coroutine_at_running _ _ hat]
      omega
  · refine ⟨_, _, _, rfl, rfl, rfl, ?_⟩
    simp [World.malloc, World.emit, co_free_ctx, Frame.toCtx, co_init]

theorem co_init_some (f : Fn) (c : co_ctx_t) (w : World) :
    ∃ fr w1, co_init f (some c) w = some (fr, w1) := by
  cases c <;> exact ⟨_, _, rfl⟩

theorem isAbort_mapValue {α β : Type} (g : α → β) (r : Res α) :
    (r.mapValue g).isAbort = r.isAbort := by
  cases r <;> rfl

theorem coroutine_not_abort (c : co_ctx_t) (w : World) :
    (coroutine (some c) w).isAbort = false := by
  obtain ⟨fr, w1, h⟩ := co_init_some .coroutine c w
  simp only [coroutine, h, coroutine_loop, co_yield, co_return]
  repeat' split
  all_goals rfl

theorem void_coroutine_not_abort (c : co_ctx_t) (w : World) :
    (void_coroutine (some c) w).isAbort = false := by
  obtain ⟨fr, w1, h⟩ := co_init_some .void_coroutine c w
  simp only [void_coroutine, h, void_coroutine_loop, co_yield, co_return]
  repeat' split
  all_goals rfl

theorem parametrized_coroutine_not_abort (c : co_ctx_t) (offset : Int) (w : World) :
    (parametrized_coroutine (some c) offset w).isAbort = false := by
  obtain ⟨fr, w1, h⟩ := co_init_some .parametrized_coroutine c w
  simp only [parametrized_coroutine, h, parametrized_coroutine_loop, co_yield, co_return]
  repeat' split
  all_goals rfl

theorem custom_dtor_coroutine_not_abort (c : co_ctx_t) (w : World) :
    (custom_dtor_coroutine (some c) w).isAbort = false := by
  obtain ⟨fr, w1, h⟩ := co_init_some .custom_dtor_coroutine c w
  simp only [custom_dtor_coroutine, h, co_return]
  repeat' split
  all_goals rfl

theorem nesting_coroutine_body_not_abort (label : Nat) (subctx : co_ctx_t) (fr : Frame)
    (w : World) : (nesting_coroutine_body label subctx fr w).isAbort = false := by
  have h := void_coroutine_not_abort subctx w
  unfold nesting_coroutine_body
  cases hv : void_coroutine (some subctx) w with
  | ret v c1 w1 => rfl
  | abort w1 => simp [hv, Res.isAbort] at h
  | undefined => rfl

theorem nesting_coroutine_not_abort (c : co_ctx_t) (w : World) :
    (nesting_coroutine (some c) w).isAbort = false := by
  obtain ⟨fr, w1, h⟩ := co_init_some .nesting_coroutine c w
  simp only [nesting_coroutine, h, co_return]
  repeat' split
  all_goals first | rfl | exact nesting_coroutine_body_not_abort _ _ _ _

theorem state_machine_coroutine_not_abort (c : co_ctx_t) (event : Int) (w : World) :
    (state_machine_coroutine (some c) event w).isAbort = false := by
  obtain ⟨fr, w1, h⟩ := co_init_some .state_machine_coroutine c w
  simp only [state_machine_coroutine, h, state_machine_coroutine_loop, co_yield, co_return]
  repeat' split
  all_goals rfl

theorem resume_not_abort (f : Fn) (arg : Int) (c : co_ctx_t) (w : World) :
    (resume f arg (some c) w).isAbort = false := by
  cases f <;> simp only [resume, isAbort_mapValue]
  · exact coroutine_not_abort c w
  · exact void_coroutine_not_abort c w
  · exact parametrized_coroutine_not_abort c arg w
  · exact custom_dtor_coroutine_not_abort c w
  · exact nesting_coroutine_not_abort c w
  · exact state_machine_coroutine_not_abort c arg w

/-- C8. In every coroutine function `co_init` reaches `abort()` exactly when
the context pointer is `NULL`; each of the six coroutine functions of
`examples.c`, called with `NULL`, ends in `abort()` with the world as it was
(no allocation, no output, no returned value), and called with a pointer that
is not `NULL` does not end in `abort()`. -/
theorem null_context_aborts (f : Fn) (arg : Int) (p : Option co_ctx_t) (w : World) :
    (co_init f p w = none ↔ p = none) ∧
      resume f arg none w = .abort w ∧
      (resume f arg none w).value = none ∧
      ((∃ w1, resume f arg p w = .abort w1) ↔ p = none) := by
  refine ⟨?_, ?_, ?_, ?_⟩
  · cases p with
    | none => exact ⟨fun _ => rfl, fun _ => rfl⟩
    | some c =>
      obtain ⟨fr, w1, h⟩ := co_init_some f c w
      simp [h]
  · cases f <;> rfl
  · cases f <;> rfl
  · cases p with
    | none => exact ⟨fun _ => rfl, fun _ => ⟨w, by cases f <;> rfl⟩⟩
    | some c =>
      constructor
      · rintro ⟨w1, h⟩
        have hn := resume_not_abort f arg c w
        rw [h] at hn
        cases hn
      · intro h
        cases h

theorem co_free_events_eq_spec (c : co_ctx_t) : co_free_events c = spec_dispose c := by
  induction c with
  | null p d => rfl
  | block addr nested user p d ih =>
    simp only [spec_dispose] at ih
    simp [co_free_events, spec_dispose, co_ctx_t.chain, spec_dispose_block, ih]

theorem dtorCall_call_dtor_events (f : co_destructor_t) (addr : Nat) (user : Locals) :
    (call_dtor_events f addr user).filterMap Event.dtorCall = [(f, addr)] := by
  cases f with
  | custom_dtor => cases hp : user.ptr <;> simp [call_dtor_events, hp, Event.dtorCall]
  | user id => simp [call_dtor_events, Event.dtorCall]

theorem dtorCall_co_free_events (c : co_ctx_t) :
    (co_free_events c).filterMap Event.dtorCall = c.registered.reverse := by
  induction c with
  | null p d => rfl
  | block addr nested user p d ih =>
    cases d with
    | none =>
      simp [co_free_events, co_ctx_t.registered, co_ctx_t.chain, Event.dtorCall, ih]
    | some f =>
      simp [co_free_events, co_ctx_t.registered, co_ctx_t.chain, Event.dtorCall, ih,
        dtorCall_call_dtor_events]

/-- C9. `co_free` on an active context appends, in this order: the disposal of
the nested context, which disposes the blocks of the nested chain innermost
first; the call of the owner's destructor, if one is registered, on the owner's
block and locals; the release of the owner's block.  The context is then
inactive, and the destructor calls in these events are exactly the
registrations of the chain, innermost first, one call for each. -/
theorem co_free_disposal_order (addr : Nat) (nested : co_ctx_t) (user : Locals)
    (p : Option Label) (d : Option co_destructor_t) (w : World) :
    (co_free_ctx (.block addr nested user p d) w).2.trace =
        w.trace ++ spec_dispose nested ++
          (match d with
           | none => []
           | some f => call_dtor_events f addr user) ++ [.free addr] ∧
      co_free_ctx nested w = (.null nested.ptr nested.dtor,
        { w with trace := w.trace ++ spec_dispose nested }) ∧
      co_free_ctx (.block addr nested user p d) w = (.null p d,
        { w with trace := w.trace ++ spec_dispose (.block addr nested user p d) }) ∧
      co_is_running (some (co_free_ctx (.block addr nested user p d) w).1) = false ∧
      (spec_dispose (.block addr nested user p d)).filterMap Event.dtorCall =
        (co_ctx_t.block addr nested user p d).registered.reverse := by
  refine ⟨?_, ?_, ?_, ?_, ?_⟩
  · simp [co_free_ctx_eq, co_free_events, co_free_events_eq_spec]
  · rw [co_free_ctx_eq, co_free_events_eq_spec]
  · rw [co_free_ctx_eq, co_free_events_eq_spec]
    rfl
  · simp [co_free_ctx_eq, co_is_running]
  · rw [← co_free_events_eq_spec]
    exact dtorCall_co_free_events _

theorem resume_null (f : Fn) (arg : Int) (p : Option Label) (d : Option co_destructor_t)
    (w : World) : resume f arg (some (.null p d)) w = resume f arg (some co_new_ctx) w := by
  cases f <;> rfl

theorem run_null (ops : List Op) (p : Option Label) (d : Option co_destructor_t) (w : World) :
    run ops (.null p d) w = run ops co_new_ctx w := by
  induction ops generalizing w with
  | nil => rfl
  | cons op ops ih =>
    cases op with
    | resume f arg => simp only [run, resume_null f arg p d w]
    | free =>
      simp only [run, co_free_ctx_null, co_new_ctx]
      exact ih w
    | is_running =>
      simp only [run, ih w]
      rfl

/-- C10. On a context that is inactive, whatever its wrapper still holds (in
particular on the context `co_free` leaves, and on the one a `co_return`
leaves), every sequence of resumptions of the example coroutines, `co_free` and
`co_is_running` gives the same returned values and liveness answers and the
same trace (printed lines, destructor calls, allocations) as the same sequence
on `co_new_ctx` in the same world. -/
theorem inactive_context_like_new (ops : List Op) (c : co_ctx_t) (w : World)
    (h : co_is_running (some c) = false) :
    run ops c w = run ops co_new_ctx w ∧
      (∀ c0 w0, run ops (co_free_ctx c0 w0).1 w = run ops co_new_ctx w) ∧
      ∀ (v : Option Int) (fr : Frame) (w0 : World) (c1 : co_ctx_t) (w1 : World),
        co_return v fr w0 = .ret v c1 w1 → run ops c1 w = run ops co_new_ctx w := by
  refine ⟨?_, ?_, ?_⟩
  · cases c with
    | null p d => exact run_null ops p d w
    | block addr nested user p d => simp [co_is_running] at h
  · intro c0 w0
    rw [co_free_ctx_eq]
    exact run_null ops _ _ w
  · intro v fr w0 c1 w1 hr
    simp only [co_return, co_free_ctx_eq, Res.ret.injEq, true_and] at hr
    rw [← hr.1]
    exact run_null ops _ _ w

theorem inactive_context_like_new_witness :
    co_is_running (some (.null (some (.yield 0)) (some .custom_dtor))) = false ∧
      run [.is_running, .resume .coroutine 0, .resume .coroutine 0, .free, .free,
           .resume .custom_dtor_coroutine 0, .is_running]
          (.null (some (.yield 0)) (some .custom_dtor)) (World.init fun _ => ⟨5, some 9⟩) =
        run [.is_running, .resume .coroutine 0, .resume .coroutine 0, .free, .free,
             .resume .custom_dtor_coroutine 0, .is_running]
          co_new_ctx (World.init fun _ => ⟨5, some 9⟩) :=
  ⟨rfl, (inactive_context_like_new
    [.is_running, .resume .coroutine 0, .resume .coroutine 0, .free, .free,
     .resume .custom_dtor_coroutine 0, .is_running]
    (.null (some (.yield 0)) (some .custom_dtor)) (World.init fun _ => ⟨5, some 9⟩) rfl).1⟩

theorem suspended_in_tidy {f : Fn} {c : co_ctx_t} (h : suspended_in f c) : c.tidy := by
  cases c with
  | null p d => trivial
  | block addr nested user p d => exact ⟨h.1, h.2.1⟩

theorem co_init_tidy (f : Fn) (c : co_ctx_t) (w : World) (hc : c.tidy) :
    ∃ fr w1, co_init f (some c) w = some (fr, w1) ∧ fr.nested = co_new_ctx ∧ fr.dtor = none ∧
      dtor_calls w1.trace = dtor_calls w.trace := by
  cases c with
  | null p d => exact ⟨_, _, rfl, rfl, rfl, by simp [World.malloc, dtor_calls, Event.dtorCall]⟩
  | block addr nested user p d => exact ⟨_, _, rfl, hc.1, hc.2, rfl⟩

theorem co_yield_suspended {α : Type} (f : Fn) {n : Nat} {v : α} {fr : Frame} {w : World}
    {v1 : α} {c1 : co_ctx_t} {w1 : World} (h : co_yield n v fr w = .ret v1 c1 w1)
    (hn : fr.nested = co_new_ctx) (hd : fr.dtor = none) (hs : n ∈ yield_sites f) :
    suspended_in f c1 ∧ dtor_calls w1.trace = dtor_calls w.trace := by
  simp only [co_yield, Frame.toCtx, Res.ret.injEq] at h
  obtain ⟨_, hc, hw⟩ := h
  subst hc hw
  exact ⟨⟨hn, hd, n, hs, rfl⟩, rfl⟩

theorem co_return_suspended {α : Type} (f : Fn) {v : α} {fr : Frame} {w : World}
    {v1 : α} {c1 : co_ctx_t} {w1 : World} (h : co_return v fr w = .ret v1 c1 w1)
    (hn : fr.nested = co_new_ctx) (hd : fr.dtor = none) :
    suspended_in f c1 ∧ dtor_calls w1.trace = dtor_calls w.trace := by
  simp only [co_return, co_free_ctx_eq, Frame.toCtx, Res.ret.injEq] at h
  obtain ⟨_, hc, hw⟩ := h
  subst hc hw
  refine ⟨trivial, ?_⟩
  simp [co_ctx_t.dtor, co_free_events, hn, hd, co_new_ctx, dtor_calls, Event.dtorCall]

theorem coroutine_suspended (c : co_ctx_t) (w : World) (hc : c.tidy)
    (v : Int) (c1 : co_ctx_t) (w1 : World) (h : coroutine (some c) w = .ret v c1 w1) :
    suspended_in .coroutine c1 ∧ dtor_calls w1.trace = dtor_calls w.trace := by
  obtain ⟨fr, w0, hi, hn, hd, ht⟩ := co_init_tidy .coroutine c w hc
  rw [← ht]
  simp only [coroutine, hi, coroutine_loop] at h
  repeat' split at h
  all_goals first
    | exact co_yield_suspended .coroutine h hn hd (by simp [yield_sites])
    | exact co_return_suspended .coroutine h hn hd
    | cases h

theorem dtor_calls_printf (w : World) (line : String) :
    dtor_calls (w.emit (.printf line)).trace = dtor_calls w.trace := by
  simp [World.emit, dtor_calls, Event.dtorCall]

theorem dtor_calls_malloc (w : World) : dtor_calls w.malloc.trace = dtor_calls w.trace := by
  simp [World.malloc, dtor_calls, Event.dtorCall]

theorem void_coroutine_suspended (c : co_ctx_t) (w : World) (hc : c.tidy)
    (v : Unit) (c1 : co_ctx_t) (w1 : World) (h : void_coroutine (some c) w = .ret v c1 w1) :
    suspended_in .void_coroutine c1 ∧ dtor_calls w1.trace = dtor_calls w.trace := by
  obtain ⟨fr, w0, hi, hn, hd, ht⟩ := co_init_tidy .void_coroutine c w hc
  rw [← ht]
  simp only [void_coroutine, hi, void_coroutine_loop] at h
  repeat' split at h
  all_goals first
    | simpa [dtor_calls_printf] using
        co_yield_suspended .void_coroutine h hn hd (by simp [yield_sites])
    | exact co_return_suspended .void_coroutine h hn hd
    | cases h

theorem parametrized_coroutine_suspended (c : co_ctx_t) (offset : Int) (w : World)
    (hc : c.tidy) (v : Int) (c1 : co_ctx_t) (w1 : World)
    (h : parametrized_coroutine (some c) offset w = .ret v c1 w1) :
    suspended_in .parametrized_coroutine c1 ∧ dtor_calls w1.trace = dtor_calls w.trace := by
  obtain ⟨fr, w0, hi, hn, hd, ht⟩ := co_init_tidy .parametrized_coroutine c w hc
  rw [← ht]
  simp only [parametrized_coroutine, hi, parametrized_coroutine_loop] at h
  repeat' split at h
  all_goals first
    | exact co_yield_suspended .parametrized_coroutine h hn hd (by simp [yield_sites])
    | exact co_return_suspended .parametrized_coroutine h hn hd
    | cases h

theorem custom_dtor_coroutine_suspended (c : co_ctx_t) (w : World) (hc : c.tidy)
    (v : Unit) (c1 : co_ctx_t) (w1 : World)
    (h : custom_dtor_coroutine (some c) w = .ret v c1 w1) :
    co_is_running (some c1) = false ∧
      ∃ addr, dtor_calls w1.trace = dtor_calls w.trace ++ [(.custom_dtor, addr)] := by
  obtain ⟨fr, w0, hi, hn, hd, ht⟩ := co_init_tidy .custom_dtor_coroutine c w hc
  rw [← ht]
  simp only [custom_dtor_coroutine, hi] at h
  repeat' split at h
  all_goals try exact Res.noConfusion h
  simp only [co_return, co_free_ctx_eq, Frame.toCtx, co_destructor, Res.ret.injEq] at h
  obtain ⟨_, hc1, hw1⟩ := h
  subst hc1 hw1
  refine ⟨rfl, fr.addr, ?_⟩
  simp [co_free_events, hn, co_new_ctx, dtor_calls, call_dtor_events, World.malloc,
    Event.dtorCall]

theorem nesting_coroutine_body_suspended (n : Nat) (fr : Frame) (w : World)
    (hn : fr.nested = co_new_ctx) (hd : fr.dtor = none)
    (hs : n ∈ yield_sites .nesting_coroutine) (v : Unit) (c1 : co_ctx_t) (w1 : World)
    (h : nesting_coroutine_body n fr.nested fr w = .ret v c1 w1) :
    suspended_in .nesting_coroutine c1 ∧ dtor_calls w1.trace = dtor_calls w.trace := by
  unfold nesting_coroutine_body at h
  rw [hn] at h
  cases hv : void_coroutine (some co_new_ctx) w with
  | ret v2 c2 w2 =>
    rw [hv] at h
    have h2 := (void_coroutine_suspended co_new_ctx w trivial v2 c2 w2 hv).2
    rw [← h2]
    exact co_yield_suspended .nesting_coroutine h hn hd hs
  | abort w2 => rw [hv] at h; cases h
  | undefined => rw [hv] at h; cases h

theorem nesting_coroutine_suspended (c : co_ctx_t) (w : World) (hc : c.tidy)
    (v : Unit) (c1 : co_ctx_t) (w1 : World) (h : nesting_coroutine (some c) w = .ret v c1 w1) :
    suspended_in .nesting_coroutine c1 ∧ dtor_calls w1.trace = dtor_calls w.trace := by
  obtain ⟨fr, w0, hi, hn, hd, ht⟩ := co_init_tidy .nesting_coroutine c w hc
  rw [← ht]
  simp only [nesting_coroutine, hi] at h
  repeat' split at h
  all_goals first
    | simpa [dtor_calls_printf] using
        nesting_coroutine_body_suspended 3 fr _ hn hd (by simp [yield_sites]) _ _ _ h
    | simpa [dtor_calls_printf] using
        nesting_coroutine_body_suspended 4 fr _ hn hd (by simp [yield_sites]) _ _ _ h
    | exact co_return_suspended .nesting_coroutine h hn hd
    | cases h

theorem state_machine_coroutine_suspended (c : co_ctx_t) (event : Int) (w : World)
    (hc : c.tidy) (v : Unit) (c1 : co_ctx_t) (w1 : World)
    (h : state_machine_coroutine (some c) event w = .ret v c1 w1) :
    suspended_in .state_machine_coroutine c1 ∧ dtor_calls w1.trace = dtor_calls w.trace := by
  obtain ⟨fr, w0, hi, hn, hd, ht⟩ := co_init_tidy .state_machine_coroutine c w hc
  rw [← ht]
  simp only [state_machine_coroutine, hi, state_machine_coroutine_loop] at h
  repeat' split at h
  all_goals first
    | simpa [dtor_calls_printf] using
        co_yield_suspended .state_machine_coroutine h hn hd (by simp [yield_sites])
    | simpa [dtor_calls_printf] using co_return_suspended .state_machine_coroutine h hn hd
    | cases h

theorem mapValue_eq_ret {α β : Type} {g : α → β} {r : Res α} {v : β} {c : co_ctx_t}
    {w : World} (h : r.mapValue g = .ret v c w) : ∃ v0, r = .ret v0 c w := by
  cases r with
  | ret v0 c0 w0 =>
    simp only [Res.mapValue, Res.ret.injEq] at h
    obtain ⟨_, hc, hw⟩ := h
    subst hc hw
    exact ⟨v0, rfl⟩
  | abort w0 => cases h
  | undefined => cases h

theorem resume_suspended (f : Fn) (arg : Int) (c : co_ctx_t) (w : World) (hc : c.tidy)
    (hf : f ≠ .custom_dtor_coroutine) (v : Option Int) (c1 : co_ctx_t) (w1 : World)
    (h : resume f arg (some c) w = .ret v c1 w1) :
    suspended_in f c1 ∧ dtor_calls w1.trace = dtor_calls w.trace := by
  cases f <;> simp only [resume] at h <;> obtain ⟨v0, h0⟩ := mapValue_eq_ret h
  · exact coroutine_suspended c w hc v0 c1 w1 h0
  · exact void_coroutine_suspended c w hc v0 c1 w1 h0
  · exact parametrized_coroutine_suspended c arg w hc v0 c1 w1 h0
  · exact absurd rfl hf
  · exact nesting_coroutine_suspended c w hc v0 c1 w1 h0
  · exact state_machine_coroutine_suspended c arg w hc v0 c1 w1 h0

theorem resume_tidy (f : Fn) (arg : Int) (c : co_ctx_t) (w : World) (hc : c.tidy)
    (v : Option Int) (c1 : co_ctx_t) (w1 : World)
    (h : resume f arg (some c) w = .ret v c1 w1) : suspended_in f c1 := by
  by_cases hf : f = .custom_dtor_coroutine
  · subst hf
    simp only [resume] at h
    obtain ⟨v0, h0⟩ := mapValue_eq_ret h
    have hr := (custom_dtor_coroutine_suspended c w hc v0 c1 w1 h0).1
    cases c1 with
    | null p d => trivial
    | block addr nested user p d => simp [co_is_running] at hr
  · exact (resume_suspended f arg c w hc hf v c1 w1 h).1

theorem co_free_ctx_tidy (c : co_ctx_t) (w : World) (hc : c.tidy) :
    co_is_running (some (co_free_ctx c w).1) = false ∧
      dtor_calls (co_free_ctx c w).2.trace = dtor_calls w.trace := by
  cases c with
  | null p d => exact ⟨rfl, rfl⟩
  | block addr nested user p d =>
    obtain ⟨hn, hd⟩ := hc
    subst hn hd
    simp [co_free_ctx_eq, co_is_running, co_free_events, co_new_ctx, dtor_calls,
      Event.dtorCall]

theorem inactive_tidy {c : co_ctx_t} (h : co_is_running (some c) = false) : c.tidy := by
  cases c with
  | null p d => trivial
  | block addr nested user p d => simp [co_is_running] at h

theorem run_dtor_calls (ops : List Op) (c : co_ctx_t) (w : World) (hc : c.tidy)
    (hops : ∀ arg, Op.resume .custom_dtor_coroutine arg ∉ ops) :
    dtor_calls (run ops c w).2 = dtor_calls w.trace := by
  induction ops generalizing c w with
  | nil => rfl
  | cons op ops ih =>
    have hops1 : ∀ arg, Op.resume .custom_dtor_coroutine arg ∉ ops :=
      fun arg hm => hops arg (List.mem_cons_of_mem _ hm)
    cases op with
    | resume f arg =>
      have hf : f ≠ .custom_dtor_coroutine := by
        intro hf
        subst hf
        exact hops arg (List.mem_cons_self _ _)
      simp only [run]
      cases hr : resume f arg (some c) w with
      | ret v c1 w1 =>
        obtain ⟨hs, hd⟩ := resume_suspended f arg c w hc hf v c1 w1 hr
        simp only [ih c1 w1 (suspended_in_tidy hs) hops1, hd]
      | abort w1 =>
        have hn := resume_not_abort f arg c w
        rw [hr] at hn
        cases hn
      | undefined => rfl
    | free =>
      simp only [run]
      obtain ⟨hr, hd⟩ := co_free_ctx_tidy c w hc
      rw [ih _ _ (inactive_tidy hr) hops1, hd]
    | is_running =>
      simp only [run]
      exact ih c w hc hops1

/-- C11. On an inactive context whose wrapper still carries a destructor `d`,
`co_init` sets `__dtor` to `NULL` in every coroutine function; every sequence
of operations then gives what it gives on `co_new_ctx`, and when none of them
is a call of `custom_dtor_coroutine` (the one function that registers a
destructor) no destructor is called at all, at no `co_return` and at no
`co_free`.  After `custom_dtor_coroutine` has completed on a fresh context,
driving `parametrized_coroutine` to completion on the same context adds no
destructor call. -/
theorem stale_destructor_cleared (ops : List Op) (p : Option Label) (d : co_destructor_t)
    (w : World) (hops : ∀ arg, Op.resume .custom_dtor_coroutine arg ∉ ops) :
    (∀ f, ∃ fr w1, co_init f (some (.null p (some d))) w = some (fr, w1) ∧ fr.dtor = none) ∧
      run ops (.null p (some d)) w = run ops co_new_ctx w ∧
      dtor_calls (run ops (.null p (some d)) w).2 = dtor_calls w.trace ∧
      ∃ c1 w1 c2 w2, custom_dtor_coroutine (some co_new_ctx) w = .ret () c1 w1 ∧
        c1 = .null (some (.begin .custom_dtor_coroutine)) (some .custom_dtor) ∧
        drive (fun c w0 => parametrized_coroutine c 10 w0) 11 c1 w1 = some (c2, w2) ∧
        w2.trace = w1.trace ++ [.malloc (w.next + 2), .free (w.next + 2)] ∧
        dtor_calls w2.trace = dtor_calls w1.trace := by
  refine ⟨fun f => ⟨_, _, rfl, rfl⟩, run_null ops _ _ w, run_dtor_calls ops _ w trivial hops, ?_⟩
  refine ⟨_, _, _, _, rfl, rfl, rfl, ?_, ?_⟩
  · simp [World.malloc, World.emit, World.free, custom_dtor, call_dtor, co_free_ctx,
      Frame.toCtx, co_destructor, co_init]
  · simp [World.malloc, World.emit, World.free, custom_dtor, call_dtor, co_free_ctx,
      Frame.toCtx, co_destructor, co_init, dtor_calls, Event.dtorCall]

theorem stale_destructor_cleared_witness :
    (∀ arg, Op.resume .custom_dtor_coroutine arg ∉
        [Op.resume .parametrized_coroutine 10, .resume .parametrized_coroutine 10, .free]) ∧
      dtor_calls (run [.resume .parametrized_coroutine 10, .resume .parametrized_coroutine 10,
          .free] (.null (some (.begin .custom_dtor_coroutine)) (some .custom_dtor))
          (World.init fun _ => ⟨3, some 8⟩)).2 =
        dtor_calls (World.init fun _ => ⟨3, some 8⟩).trace :=
  ⟨by simp,
    (stale_destructor_cleared
      [.resume .parametrized_coroutine 10, .resume .parametrized_coroutine 10, .free]
      (some (.begin .custom_dtor_coroutine)) .custom_dtor (World.init fun _ => ⟨3, some 8⟩)
      (by simp)).2.2.1⟩

/-- C12, the claim as stated fails: in a world where `malloc` hands out memory
holding `i = 7` and `ptr = 3`, the locals `co_init` leaves for the body of
`coroutine` on a fresh context are those, not zero, and `ctx->ptr` is not
`NULL` at the entry of `custom_dtor_coroutine`. -/
theorem co_init_locals_not_zeroed :
    (co_init .coroutine (some co_new_ctx) (World.init fun _ => ⟨7, some 3⟩)).map
        (fun r => r.1.user) = some ⟨7, some 3⟩ ∧
      (co_init .coroutine (some co_new_ctx) (World.init fun _ => ⟨7, some 3⟩)).map
        (fun r => r.1.user.i) ≠ some 0 ∧
      (co_init .custom_dtor_coroutine (some co_new_ctx) (World.init fun _ => ⟨7, some 3⟩)).map
        (fun r => r.1.user.ptr) ≠ some none := by
  refine ⟨rfl, ?_, ?_⟩ <;> decide

/-- C12, amended. On an inactive context `co_init` allocates the block, sets
`__nested` to `co_new_ctx`, `__ptr` to `&&__begin` and `__dtor` to `NULL`, and
leaves the locals as `malloc` returned them.  The bodies write their field
before reading it: the first call of `coroutine` returns 0 and of
`void_coroutine` prints 0 with `ctx->i = 0` stored, and `custom_dtor_coroutine`
stores the pointer of its own `malloc(1)`, which its destructor then frees,
whatever the block held. -/
theorem co_init_leaves_locals (f : Fn) (p : Option Label) (d : Option co_destructor_t)
    (w : World) :
    co_init f (some (.null p d)) w =
        some ({ addr := w.next, nested := co_new_ctx, user := w.junk w.next,
                ptr := some (.begin f), dtor := none }, w.malloc) ∧
      coroutine (some (.null p d)) w =
        .ret 0 (.block w.next co_new_ctx { w.junk w.next with i := 0 } (some (.yield 0)) none)
          w.malloc ∧
      void_coroutine (some (.null p d)) w =
        .ret () (.block w.next co_new_ctx { w.junk w.next with i := 0 } (some (.yield 1)) none)
          (w.malloc.emit (.printf "void_coroutine: 0")) ∧
      custom_dtor_coroutine (some (.null p d)) w =
        .ret () (.null (some (.begin .custom_dtor_coroutine)) (some .custom_dtor))
          { w with
            next := w.next + 2
            trace := w.trace ++ [.malloc w.next, .malloc (w.next + 1),
              .dtor .custom_dtor w.next, .printf "Running custom destructor",
              .free (w.next + 1), .free w.next] } := by
  refine ⟨rfl, rfl, rfl, ?_⟩
  simp [custom_dtor_coroutine, co_init, co_return, co_destructor, Frame.toCtx, co_free_ctx,
    call_dtor, custom_dtor, World.malloc, World.emit, World.free, co_new_ctx]

theorem parametrized_step (k : Nat) (o : Int) (c : co_ctx_t) (w : World)
    (hc : parametrized_at k c) (hk : k ≤ 10)
    (ho : k < 10 → INT_MIN ≤ (k : Int) + o ∧ (k : Int) + o ≤ INT_MAX) :
    ∃ c1 w1, parametrized_coroutine (some c) o w =
        .ret (if k < 10 then (k : Int) + o else -1) c1 w1 ∧
      parametrized_at ((k + 1) % 11) c1 ∧ co_is_running (some c1) = decide (k ≠ 10) := by
  cases c with
  | null p d =>
    have h0 : k = 0 := hc
    subst h0
    have hadd : int_add 0 o = some (0 + o) := by
      unfold int_add
      rw [if_pos (by simpa using ho (by decide))]
    refine ⟨.block w.next co_new_ctx { w.junk w.next with i := 0 } (some (.yield 2)) none,
      w.malloc, ?_, ⟨by decide, by decide, rfl, rfl⟩, rfl⟩
    simp [parametrized_coroutine, co_init, parametrized_coroutine_loop, hadd, co_yield,
      Frame.toCtx]
  | block addr nested user p d =>
    obtain ⟨h1, _, hi, hp⟩ := hc
    have hadd : int_add user.i 1 = some (k : Int) := by
      unfold int_add INT_MIN INT_MAX
      rw [if_pos (by omega)]
      congr 1
      omega
    by_cases hlt : k < 10
    · have hlt2 : (k : Int) < 10 := by omega
      have hadd2 : int_add (k : Int) o = some ((k : Int) + o) := by
        unfold int_add
        rw [if_pos (ho hlt)]
      refine ⟨.block addr nested { user with i := (k : Int) } (some (.yield 2)) d, w, ?_, ?_, ?_⟩
      · simp [parametrized_coroutine, co_init, hp, hadd, parametrized_coroutine_loop, hlt,
          hlt2, hadd2, co_yield, Frame.toCtx]
      · rw [Nat.mod_eq_of_lt (by omega)]
        exact ⟨by omega, by omega, by push_cast; omega, rfl⟩
      · have : k ≠ 10 := by omega
        simp [co_is_running, this]
    · have h10 : k = 10 := by omega
      subst h10
      refine ⟨(co_free_ctx (.block addr nested { user with i := 10 } (some (.yield 2)) d) w).1,
        (co_free_ctx (.block addr nested { user with i := 10 } (some (.yield 2)) d) w).2,
        ?_, ?_, ?_⟩
      · simp [parametrized_coroutine, co_init, hp, hadd, parametrized_coroutine_loop,
          co_return, Frame.toCtx]
      · simp [co_free_ctx_eq, parametrized_at]
      · simp [co_free_ctx_eq, co_is_running]

theorem parametrized_resumptions_from (os : List Int) (k : Nat) (c : co_ctx_t) (w : World)
    (hc : parametrized_at k c) (hk : k + os.length ≤ 11)
    (ho : ∀ j o, (j, o) ∈ os.enumFrom k → j < 10 →
      INT_MIN ≤ (j : Int) + o ∧ (j : Int) + o ≤ INT_MAX) :
    ∃ c1 w1, parametrized_resumptions os c w =
        some ((os.enumFrom k).map (fun jo =>
          (if jo.1 < 10 then (jo.1 : Int) + jo.2 else -1, decide (jo.1 ≠ 10))), c1, w1) ∧
      parametrized_at ((k + os.length) % 11) c1 := by
  induction os generalizing k c w with
  | nil =>
    refine ⟨c, w, rfl, ?_⟩
    have hk10 : k ≤ 10 := by
      cases c with
      | null p d =>
        have h0 : k = 0 := hc
        omega
      | block addr nested user p d => exact hc.2.1
    simpa [Nat.mod_eq_of_lt (show k < 11 by omega)] using hc
  | cons o os ih =>
    simp only [List.length_cons] at hk
    obtain ⟨c1, w1, hstep, hat, hrun⟩ := parametrized_step k o c w hc (by omega)
      (ho k o (by simp [List.enumFrom_cons]))
    by_cases hlt : k < 10
    · rw [Nat.mod_eq_of_lt (by omega)] at hat
      obtain ⟨c2, w2, h2, hat2⟩ := ih (k + 1) c1 w1 hat (by omega)
        (fun j o1 hm => ho j o1 (by simp [List.enumFrom_cons, hm]))
      refine ⟨c2, w2, ?_, ?_⟩
      · simp only [parametrized_resumptions, hstep, h2, hrun, List.enumFrom_cons,
          List.map_cons]
      · have : k + 1 + os.length = k + (o :: os).length := by simp; omega
        rw [← this]
        exact hat2
    · have h10 : k = 10 := by omega
      subst h10
      have hnil : os = [] := List.length_eq_zero.mp (by omega)
      subst hnil
      refine ⟨c1, w1, ?_, ?_⟩
      · simp only [parametrized_resumptions, hstep, hrun, List.enumFrom_cons, List.map_cons,
          List.enumFrom_nil, List.map_nil]
      · simpa using hat

/-- C13. Starting `parametrized_coroutine` on a fresh context and resuming it
with the offsets of a list of at most eleven, where `k + o` is an `int` for
every offset `o` at a position `k < 10`: every call returns, the call at
position `k < 10` returns `k + o` for its own offset `o` and leaves the context
active, the call at position 10 returns -1 whatever its offset and leaves it
inactive; afterwards the context holds only the counter (`ctx->i` is the number
of calls less one), none of the offsets. -/
theorem parametrized_offsets_not_kept (os : List Int) (w : World) (hlen : os.length ≤ 11)
    (ho : ∀ k o, (k, o) ∈ os.enum → k < 10 →
      INT_MIN ≤ (k : Int) + o ∧ (k : Int) + o ≤ INT_MAX) :
    ∃ c1 w1, parametrized_resumptions os co_new_ctx w =
        some (os.enum.map (fun ko =>
          (if ko.1 < 10 then (ko.1 : Int) + ko.2 else -1, decide (ko.1 ≠ 10))), c1, w1) ∧
      parametrized_at (os.length % 11) c1 := by
  obtain ⟨c1, w1, h, hat⟩ :=
    parametrized_resumptions_from os 0 co_new_ctx w rfl (by omega) ho
  exact ⟨c1, w1, h, by simpa using hat⟩

theorem parametrized_offsets_not_kept_witness :
    ([10, -3, 7].length ≤ 11 ∧
      ∀ k o, (k, o) ∈ ([10, -3, 7] : List Int).enum → k < 10 →
        INT_MIN ≤ (k : Int) + o ∧ (k : Int) + o ≤ INT_MAX) ∧
      ∃ c1 w1, parametrized_resumptions [10, -3, 7] co_new_ctx (World.init fun _ => ⟨0, none⟩) =
          some (([10, -3, 7] : List Int).enum.map (fun ko =>
            (if ko.1 < 10 then (ko.1 : Int) + ko.2 else -1, decide (ko.1 ≠ 10))), c1, w1) ∧
        parametrized_at ([10, -3, 7].length % 11) c1 :=
  have ho : ∀ k o, (k, o) ∈ ([10, -3, 7] : List Int).enum → k < 10 →
      INT_MIN ≤ (k : Int) + o ∧ (k : Int) + o ≤ INT_MAX := by
    intro k o hm _
    simp [List.enum] at hm
    rcases hm with ⟨rfl, rfl⟩ | ⟨rfl, rfl⟩ | ⟨rfl, rfl⟩ <;> decide
  ⟨⟨by decide, ho⟩,
    parametrized_offsets_not_kept [10, -3, 7] (World.init fun _ => ⟨0, none⟩) (by decide) ho⟩

theorem dtor_calls_append (l1 l2 : List Event) :
    dtor_calls (l1 ++ l2) = dtor_calls l1 ++ dtor_calls l2 := by
  simp [dtor_calls]

/-- C14. `co_destructor(fn)` sets `__dtor` to `fn` and leaves the block, its
locals, its nested context and `__ptr` as they are; a second registration
replaces the first.  When two different destructors were registered, `co_free`
calls, after the disposal of the nested context, the second one on the owner's
block exactly once and the first one on that block not at all. -/
theorem co_destructor_overwrites (d1 d2 : co_destructor_t) (fr : Frame) (w : World)
    (hne : d1 ≠ d2) (hown : fr.addr ∉ fr.nested.addrs) :
    ((co_destructor d2 fr).addr = fr.addr ∧ (co_destructor d2 fr).nested = fr.nested ∧
        (co_destructor d2 fr).user = fr.user ∧ (co_destructor d2 fr).ptr = fr.ptr ∧
        (co_destructor d2 fr).dtor = some d2) ∧
      co_destructor d2 (co_destructor d1 fr) = co_destructor d2 fr ∧
      dtor_calls (co_free_ctx (co_destructor d2 (co_destructor d1 fr)).toCtx w).2.trace =
        dtor_calls w.trace ++ fr.nested.registered.reverse ++ [(d2, fr.addr)] ∧
      (co_free_ctx (co_destructor d2 (co_destructor d1 fr)).toCtx w).2.trace.count
          (.dtor d2 fr.addr) = w.trace.count (.dtor d2 fr.addr) + 1 ∧
      (co_free_ctx (co_destructor d2 (co_destructor d1 fr)).toCtx w).2.trace.count
          (.dtor d1 fr.addr) = w.trace.count (.dtor d1 fr.addr) := by
  have h0 : ∀ d, (co_free_events fr.nested).count (.dtor d fr.addr) = 0 := fun d =>
    List.count_eq_zero.mpr fun hm => hown (dtor_mem_co_free_events hm)
  have h1 : (call_dtor_events d2 fr.addr fr.user).count (.dtor d1 fr.addr) = 0 :=
    List.count_eq_zero.mpr fun hm => hne (dtor_mem_call_dtor_events hm).2
  refine ⟨⟨rfl, rfl, rfl, rfl, rfl⟩, rfl, ?_, ?_, ?_⟩
  · simp only [co_free_ctx_eq, co_destructor, Frame.toCtx, co_free_events, dtor_calls_append]
    simp [dtor_calls, dtorCall_co_free_events, dtorCall_call_dtor_events, Event.dtorCall]
  · simp [co_free_ctx_eq, co_destructor, Frame.toCtx, co_free_events, h0,
      count_call_dtor_events]
  · simp [co_free_ctx_eq, co_destructor, Frame.toCtx, co_free_events, h0, h1]

theorem co_destructor_overwrites_witness :
    (co_destructor_t.user 1 ≠ .custom_dtor ∧
      (0 : Nat) ∉ (co_ctx_t.block 1 co_new_ctx ⟨0, none⟩ none (some (.user 1))).addrs) ∧
      dtor_calls (co_free_ctx (co_destructor .custom_dtor (co_destructor (.user 1)
          { addr := 0, nested := .block 1 co_new_ctx ⟨0, none⟩ none (some (.user 1)),
            user := ⟨4, some 9⟩, ptr := some (.begin .custom_dtor_coroutine),
            dtor := none })).toCtx (World.init fun _ => ⟨0, none⟩)).2.trace =
        dtor_calls (World.init fun _ => ⟨0, none⟩).trace ++
          (co_ctx_t.block 1 co_new_ctx ⟨0, none⟩ none (some (.user 1))).registered.reverse ++
          [(.custom_dtor, 0)] :=
  ⟨⟨by decide, by decide⟩,
    (co_destructor_overwrites (.user 1) .custom_dtor
      { addr := 0, nested := .block 1 co_new_ctx ⟨0, none⟩ none (some (.user 1)),
        user := ⟨4, some 9⟩, ptr := some (.begin .custom_dtor_coroutine), dtor := none }
      (World.init fun _ => ⟨0, none⟩) (by decide) (by decide)).2.2.1⟩

theorem co_yield_exit {α : Type} {n : Nat} {v : α} {fr : Frame} {w : World}
    {v1 : α} {c1 : co_ctx_t} {w1 : World} (h : co_yield n v fr w = .ret v1 c1 w1) :
    ended_at_yield c1 ∨ ended_at_return c1 w1 := by
  simp only [co_yield, Res.ret.injEq] at h
  exact Or.inl ⟨n, fr, h.2.1.symm⟩

theorem co_return_exit {α : Type} {v : α} {fr : Frame} {w : World}
    {v1 : α} {c1 : co_ctx_t} {w1 : World} (h : co_return v fr w = .ret v1 c1 w1) :
    ended_at_yield c1 ∨ ended_at_return c1 w1 := by
  simp only [co_return, Res.ret.injEq] at h
  exact Or.inr ⟨fr, w, h.2.1.symm, h.2.2.symm⟩

theorem coroutine_exit (c : co_ctx_t) (w : World) (v : Int) (c1 : co_ctx_t) (w1 : World)
    (h : coroutine (some c) w = .ret v c1 w1) : ended_at_yield c1 ∨ ended_at_return c1 w1 := by
  obtain ⟨fr, w0, hi⟩ := co_init_some .coroutine c w
  simp only [coroutine, hi, coroutine_loop] at h
  repeat' split at h
  all_goals first
    | exact co_yield_exit h
    | exact co_return_exit h
    | cases h

theorem void_coroutine_exit (c : co_ctx_t) (w : World) (v : Unit) (c1 : co_ctx_t) (w1 : World)
    (h : void_coroutine (some c) w = .ret v c1 w1) :
    ended_at_yield c1 ∨ ended_at_return c1 w1 := by
  obtain ⟨fr, w0, hi⟩ := co_init_some .void_coroutine c w
  simp only [void_coroutine, hi, void_coroutine_loop] at h
  repeat' split at h
  all_goals first
    | exact co_yield_exit h
    | exact co_return_exit h
    | cases h

theorem parametrized_coroutine_exit (c : co_ctx_t) (offset : Int) (w : World) (v : Int)
    (c1 : co_ctx_t) (w1 : World) (h : parametrized_coroutine (some c) offset w = .ret v c1 w1) :
    ended_at_yield c1 ∨ ended_at_return c1 w1 := by
  obtain ⟨fr, w0, hi⟩ := co_init_some .parametrized_coroutine c w
  simp only [parametrized_coroutine, hi, parametrized_coroutine_loop] at h
  repeat' split at h
  all_goals first
    | exact co_yield_exit h
    | exact co_return_exit h
    | cases h

theorem custom_dtor_coroutine_exit (c : co_ctx_t) (w : World) (v : Unit) (c1 : co_ctx_t)
    (w1 : World) (h : custom_dtor_coroutine (some c) w = .ret v c1 w1) :
    ended_at_yield c1 ∨ ended_at_return c1 w1 := by
  obtain ⟨fr, w0, hi⟩ := co_init_some .custom_dtor_coroutine c w
  simp only [custom_dtor_coroutine, hi] at h
  repeat' split at h
  all_goals first
    | exact co_yield_exit h
    | exact co_return_exit h
    | cases h

theorem nesting_coroutine_body_exit (n : Nat) (subctx : co_ctx_t) (fr : Frame) (w : World)
    (v : Unit) (c1 : co_ctx_t) (w1 : World)
    (h : nesting_coroutine_body n subctx fr w = .ret v c1 w1) :
    ended_at_yield c1 ∨ ended_at_return c1 w1 := by
  unfold nesting_coroutine_body at h
  cases hv : void_coroutine (some subctx) w with
  | ret v2 c2 w2 => rw [hv] at h; exact co_yield_exit h
  | abort w2 => rw [hv] at h; cases h
  | undefined => rw [hv] at h; cases h

theorem nesting_coroutine_exit (c : co_ctx_t) (w : World) (v : Unit) (c1 : co_ctx_t)
    (w1 : World) (h : nesting_coroutine (some c) w = .ret v c1 w1) :
    ended_at_yield c1 ∨ ended_at_return c1 w1 := by
  obtain ⟨fr, w0, hi⟩ := co_init_some .nesting_coroutine c w
  simp only [nesting_coroutine, hi] at h
  repeat' split at h
  all_goals first
    | exact nesting_coroutine_body_exit _ _ _ _ _ _ _ h
    | exact co_return_exit h
    | cases h

theorem state_machine_coroutine_exit (c : co_ctx_t) (event : Int) (w : World) (v : Unit)
    (c1 : co_ctx_t) (w1 : World) (h : state_machine_coroutine (some c) event w = .ret v c1 w1) :
    ended_at_yield c1 ∨ ended_at_return c1 w1 := by
  obtain ⟨fr, w0, hi⟩ := co_init_some .state_machine_coroutine c w
  simp only [state_machine_coroutine, hi, state_machine_coroutine_loop] at h
  repeat' split at h
  all_goals first
    | exact co_yield_exit h
    | exact co_return_exit h
    | cases h

theorem resume_exit (f : Fn) (arg : Int) (c : co_ctx_t) (w : World) (v : Option Int)
    (c1 : co_ctx_t) (w1 : World) (h : resume f arg (some c) w = .ret v c1 w1) :
    ended_at_yield c1 ∨ ended_at_return c1 w1 := by
  cases f <;> simp only [resume] at h <;> obtain ⟨v0, h0⟩ := mapValue_eq_ret h
  · exact coroutine_exit c w v0 c1 w1 h0
  · exact void_coroutine_exit c w v0 c1 w1 h0
  · exact parametrized_coroutine_exit c arg w v0 c1 w1 h0
  · exact custom_dtor_coroutine_exit c w v0 c1 w1 h0
  · exact nesting_coroutine_exit c w v0 c1 w1 h0
  · exact state_machine_coroutine_exit c arg w v0 c1 w1 h0

theorem ended_at_yield_running {c1 : co_ctx_t} (h : ended_at_yield c1) :
    co_is_running (some c1) = true := by
  obtain ⟨n, fr, rfl⟩ := h
  rfl

theorem ended_at_return_not_running {c1 : co_ctx_t} {w1 : World}
    (h : ended_at_return c1 w1) : co_is_running (some c1) = false := by
  obtain ⟨fr, w0, rfl, _⟩ := h
  simp [co_free_ctx_eq, co_is_running]

/-- C15. `co_is_running` answers true exactly for a pointer that is not `NULL`
to a wrapper whose block is present, and as an operation it leaves context and
world as they are.  A call of an example coroutine on a context that returns
has ended at a `co_yield` or at a `co_return`; afterwards `co_is_running` is
true exactly when it ended at a `co_yield` and false exactly when it ended at a
`co_return`. -/
theorem liveness_signal (f : Fn) (arg : Int) (c : co_ctx_t) (w : World) (v : Option Int)
    (c1 : co_ctx_t) (w1 : World) (h : resume f arg (some c) w = .ret v c1 w1) :
    (∀ p : Option co_ctx_t, co_is_running p = true ↔
        ∃ addr nested user ptr d, p = some (.block addr nested user ptr d)) ∧
      step .is_running c w = some (c, w) ∧
      (ended_at_yield c1 ∨ ended_at_return c1 w1) ∧
      (co_is_running (some c1) = true ↔ ended_at_yield c1) ∧
      (co_is_running (some c1) = false ↔ ended_at_return c1 w1) := by
  have hex := resume_exit f arg c w v c1 w1 h
  refine ⟨?_, rfl, hex, ?_, ?_⟩
  · intro p
    cases p with
    | none => simp [co_is_running]
    | some c0 =>
      cases c0 with
      | null p0 d0 => simp [co_is_running]
      | block addr nested user p0 d0 => simp [co_is_running]
  · constructor
    · intro hr
      rcases hex with hy | hret
      · exact hy
      · rw [ended_at_return_not_running hret] at hr
        cases hr
    · exact ended_at_yield_running
  · constructor
    · intro hr
      rcases hex with hy | hret
      · rw [ended_at_yield_running hy] at hr
        cases hr
      · exact hret
    · exact ended_at_return_not_running

theorem liveness_signal_witness :
    resume .coroutine 0 (some co_new_ctx) (World.init fun _ => ⟨7, none⟩) =
        .ret (some 0) (.block 0 co_new_ctx ⟨0, none⟩ (some (.yield 0)) none)
          (World.init fun _ => ⟨7, none⟩).malloc ∧
      (co_is_running (some (.block 0 co_new_ctx ⟨0, none⟩ (some (.yield 0)) none)) = true ↔
        ended_at_yield (.block 0 co_new_ctx ⟨0, none⟩ (some (.yield 0)) none)) :=
  ⟨rfl, (liveness_signal .coroutine 0 co_new_ctx (World.init fun _ => ⟨7, none⟩) (some 0)
    (.block 0 co_new_ctx ⟨0, none⟩ (some (.yield 0)) none)
    (World.init fun _ => ⟨7, none⟩).malloc rfl).2.2.2.1⟩

theorem printed_append (l1 l2 : List Event) : printed (l1 ++ l2) = printed l1 ++ printed l2 := by
  induction l1 with
  | nil => rfl
  | cons e l ih => cases e <;> simp [printed, ih]

theorem printed_emit_printf (w : World) (line : String) :
    printed (w.emit (.printf line)).trace = printed w.trace ++ [line] := by
  simp [World.emit, printed_append, printed]

theorem printed_malloc (w : World) : printed w.malloc.trace = printed w.trace := by
  simp [World.malloc, printed_append, printed]

theorem state_machine_step (s e : Int) (c : co_ctx_t) (w1 w2 : World)
    (hs : state_machine_sim s c) (hw : printed w1.trace = printed w2.trace) :
    ∃ c1 w3, state_machine_coroutine (some c) e w1 = .ret () c1 w3 ∧
      state_machine_sim (state_machine s e w2).1 c1 ∧
      printed w3.trace = printed (state_machine s e w2).2.trace := by
  cases c with
  | null p d =>
    have h0 : s = 0 := hs
    subst h0
    refine ⟨_, _, rfl, ?_, ?_⟩
    · simp [state_machine, state_machine_sim, Frame.toCtx]
    · simp [state_machine, printed_emit_printf, printed_malloc, hw]
  | block addr nested user p d =>
    obtain ⟨hn, hd, h⟩ := hs
    subst hn hd
    rcases h with ⟨rfl, rfl | rfl⟩ | ⟨rfl, rfl⟩ | ⟨rfl, rfl⟩
    · refine ⟨_, _, rfl, ?_, ?_⟩
      · simp [state_machine, state_machine_sim, Frame.toCtx]
      · simp [state_machine, printed_emit_printf, hw]
    · refine ⟨_, _, rfl, ?_, ?_⟩
      · simp [state_machine, state_machine_sim, Frame.toCtx]
      · simp [state_machine, printed_emit_printf, hw]
    · by_cases he : e = 0
      · subst he
        refine ⟨_, _, rfl, ?_, ?_⟩
        · simp [state_machine, state_machine_sim, Frame.toCtx]
        · simp [state_machine, printed_emit_printf, hw]
      · refine ⟨.block addr co_new_ctx user (some (.yield 7)) none,
          w1.emit (.printf ("State 2; event: " ++ toString e)), ?_, ?_, ?_⟩
        · simp [state_machine_coroutine, co_init, he, co_yield, Frame.toCtx]
        · simp [state_machine, state_machine_sim, he]
        · simp [state_machine, printed_emit_printf, hw]
    · refine ⟨_, _, rfl, ?_, ?_⟩
      · simp [state_machine, state_machine_sim, co_free_ctx, co_new_ctx, Frame.toCtx]
      · simp [state_machine, printed_emit_printf, hw, co_free_ctx, co_new_ctx, Frame.toCtx,
          World.emit, printed_append, printed]

theorem state_machine_sim_inactive (s : Int) (c : co_ctx_t) (hs : state_machine_sim s c) :
    (!co_is_running (some c)) = decide (s = 0) := by
  cases c with
  | null p d =>
    have h0 : s = 0 := hs
    simp [co_is_running, h0]
  | block addr nested user p d =>
    obtain ⟨_, _, h⟩ := hs
    rcases h with ⟨rfl, _⟩ | ⟨rfl, _⟩ | ⟨rfl, _⟩ <;> simp [co_is_running]

theorem state_machine_runs (es : List Int) (s : Int) (c : co_ctx_t) (w1 w2 : World)
    (hs : state_machine_sim s c) (hw : printed w1.trace = printed w2.trace) :
    ∃ w3, state_machine_coroutine_run es c w1 = some ((state_machine_run es s w2).1, w3) ∧
      printed w3.trace = printed (state_machine_run es s w2).2.trace := by
  induction es generalizing s c w1 w2 with
  | nil => exact ⟨w1, rfl, hw⟩
  | cons e es ih =>
    obtain ⟨c1, w3, hstep, hs1, hw1⟩ := state_machine_step s e c w1 w2 hs hw
    obtain ⟨w4, hrun, hw4⟩ := ih _ c1 w3 _ hs1 hw1
    refine ⟨w4, ?_, ?_⟩
    · simp only [state_machine_coroutine_run, hstep, hrun, state_machine_run,
        state_machine_sim_inactive _ c1 hs1]
    · simpa only [state_machine_run] using hw4

/-- C16. For every list of events and every world, calling
`state_machine_coroutine` once for each event from a fresh context always
returns, prints the same lines as calling `state_machine` once for each event
from `*state = 0`, and after each call the context is inactive exactly when
`*state` is 0; for the events of `main` the printed lines are those listed. -/
theorem state_machine_coroutine_equivalent (es : List Int) (w : World) :
    (∃ w3, state_machine_coroutine_run es co_new_ctx w =
        some ((state_machine_run es 0 w).1, w3) ∧
      printed w3.trace = printed (state_machine_run es 0 w).2.trace) ∧
    (state_machine_coroutine_run [-1, -1, 0, -1, 0, -1, 1, -1] co_new_ctx
        (World.init fun _ => ⟨0, none⟩)).map (fun r => (r.1, printed r.2.trace)) =
      some ([false, false, false, false, false, false, false, true],
        ["State 0", "State 1", "State 2; event: 0", "State 1", "State 2; event: 0",
         "State 1", "State 2; event: 1", "State 3"]) :=
  ⟨state_machine_runs es 0 co_new_ctx w w rfl rfl, rfl⟩

theorem step_suspended (f : Fn) (op : Op) (c : co_ctx_t) (w : World) (c1 : co_ctx_t)
    (w1 : World) (hc : suspended_in f c) (hop : ∀ g arg, op = .resume g arg → g = f)
    (h : step op c w = some (c1, w1)) : suspended_in f c1 := by
  cases op with
  | resume g arg =>
    have hg : g = f := hop g arg rfl
    subst hg
    simp only [step] at h
    cases hr : resume g arg (some c) w with
    | ret v c2 w2 =>
      rw [hr] at h
      simp only [Option.some.injEq, Prod.mk.injEq] at h
      obtain ⟨rfl, rfl⟩ := h
      exact resume_tidy g arg c w (suspended_in_tidy hc) v c2 w2 hr
    | abort w2 => rw [hr] at h; cases h
    | undefined => rw [hr] at h; cases h
  | free =>
    simp only [step, co_free_ctx_eq, Option.some.injEq, Prod.mk.injEq] at h
    obtain ⟨rfl, _⟩ := h
    trivial
  | is_running =>
    simp only [step, Option.some.injEq, Prod.mk.injEq] at h
    obtain ⟨rfl, _⟩ := h
    exact hc

theorem after_suspended (f : Fn) (ops : List Op) (c : co_ctx_t) (w : World) (c1 : co_ctx_t)
    (w1 : World) (hc : suspended_in f c) (hops : ∀ op ∈ ops, ∀ g arg, op = .resume g arg → g = f)
    (h : after ops c w = some (c1, w1)) : suspended_in f c1 := by
  induction ops generalizing c w with
  | nil =>
    simp only [after, Option.some.injEq, Prod.mk.injEq] at h
    obtain ⟨rfl, _⟩ := h
    exact hc
  | cons op ops ih =>
    simp only [after] at h
    cases hs : step op c w with
    | none => rw [hs] at h; cases h
    | some r =>
      obtain ⟨c2, w2⟩ := r
      rw [hs] at h
      exact ih c2 w2 (step_suspended f op c w c2 w2 hc (hops op (List.mem_cons_self _ _)) hs)
        (fun op1 hm => hops op1 (List.mem_cons_of_mem _ hm)) h

theorem step_tidy (op : Op) (c : co_ctx_t) (w : World) (c1 : co_ctx_t) (w1 : World)
    (hc : c.tidy) (h : step op c w = some (c1, w1)) : c1.tidy := by
  cases op with
  | resume g arg =>
    simp only [step] at h
    cases hr : resume g arg (some c) w with
    | ret v c2 w2 =>
      rw [hr] at h
      simp only [Option.some.injEq, Prod.mk.injEq] at h
      obtain ⟨rfl, rfl⟩ := h
      exact suspended_in_tidy (resume_tidy g arg c w hc v c2 w2 hr)
    | abort w2 => rw [hr] at h; cases h
    | undefined => rw [hr] at h; cases h
  | free =>
    simp only [step, co_free_ctx_eq, Option.some.injEq, Prod.mk.injEq] at h
    obtain ⟨rfl, _⟩ := h
    trivial
  | is_running =>
    simp only [step, Option.some.injEq, Prod.mk.injEq] at h
    obtain ⟨rfl, _⟩ := h
    exact hc

theorem after_tidy (ops : List Op) (c : co_ctx_t) (w : World) (c1 : co_ctx_t) (w1 : World)
    (hc : c.tidy) (h : after ops c w = some (c1, w1)) : c1.tidy := by
  induction ops generalizing c w with
  | nil =>
    simp only [after, Option.some.injEq, Prod.mk.injEq] at h
    obtain ⟨rfl, _⟩ := h
    exact hc
  | cons op ops ih =>
    simp only [after] at h
    cases hs : step op c w with
    | none => rw [hs] at h; cases h
    | some r =>
      obtain ⟨c2, w2⟩ := r
      rw [hs] at h
      exact ih c2 w2 (step_tidy op c w c2 w2 hc hs) h

/-- C18. The body of either loop of `nesting_coroutine` returns the context
with the stored `__nested` it found, whatever the inner call did to `subctx`.
In every context reached from a fresh context by calls of the example
coroutines (with any arguments), `co_free` and `co_is_running`, the `__nested`
stored in an active context is `co_new_ctx`, hence inactive, and the `subctx`
that `co_init` of any coroutine function then sets up is `co_new_ctx`, hence
inactive. -/
theorem stored_nested_never_written (ops : List Op) (w : World) (c : co_ctx_t) (w1 : World)
    (h : after ops co_new_ctx w = some (c, w1)) :
    (∀ n subctx fr w0 v c2 w2, nesting_coroutine_body n subctx fr w0 = .ret v c2 w2 →
        c2 = .block fr.addr fr.nested fr.user (some (.yield n)) fr.dtor) ∧
      (∀ addr nested user p d, c = .block addr nested user p d →
        nested = co_new_ctx ∧ co_is_running (some nested) = false) ∧
      ∀ f, ∃ fr w2, co_init f (some c) w1 = some (fr, w2) ∧ fr.nested = co_new_ctx ∧
        co_is_running (some fr.nested) = false := by
  have ht := after_tidy ops co_new_ctx w c w1 trivial h
  refine ⟨?_, ?_, ?_⟩
  · intro n subctx fr w0 v c2 w2 hb
    unfold nesting_coroutine_body at hb
    cases hv : void_coroutine (some subctx) w0 with
    | ret v3 c3 w3 =>
      rw [hv] at hb
      simp only [co_yield, Frame.toCtx, Res.ret.injEq] at hb
      exact hb.2.1.symm
    | abort w3 => rw [hv] at hb; cases hb
    | undefined => rw [hv] at hb; cases hb
  · intro addr nested user p d hc
    subst hc
    exact ⟨ht.1, by rw [ht.1]; rfl⟩
  · intro f
    cases c with
    | null p d => exact ⟨_, _, rfl, rfl, rfl⟩
    | block addr nested user p d => exact ⟨_, _, rfl, ht.1, by rw [ht.1]; rfl⟩

theorem stored_nested_never_written_witness :
    after [Op.resume .nesting_coroutine 0, .resume .nesting_coroutine 0] co_new_ctx
        (World.init fun _ => ⟨0, none⟩) =
      some (.block 0 co_new_ctx ⟨0, none⟩ (some (.yield 4)) none,
        { next := 3, junk := fun _ => ⟨0, none⟩,
          trace := [.malloc 0, .printf "First nested coroutine", .malloc 1,
            .printf "void_coroutine: 0", .printf "Second nested coroutine", .malloc 2,
            .printf "void_coroutine: 0"] }) ∧
      ∀ addr nested user p d,
        co_ctx_t.block 0 co_new_ctx ⟨0, none⟩ (some (.yield 4)) none =
            .block addr nested user p d →
          nested = co_new_ctx ∧ co_is_running (some nested) = false :=
  ⟨rfl, (stored_nested_never_written
    [.resume .nesting_coroutine 0, .resume .nesting_coroutine 0]
    (World.init fun _ => ⟨0, none⟩) _ _ rfl).2.1⟩

theorem coroutine_same (c1 c2 : co_ctx_t) (w1 w2 : World) (hc : same_but_junk c1 c2)
    (hw : same_world w1 w2) : (coroutine (some c1) w1).same (coroutine (some c2) w2) := by
  obtain ⟨hn, ht⟩ := hw
  cases c1 with
  | null p1 d1 =>
    cases c2 with
    | null p2 d2 =>
      simp [coroutine, co_init, coroutine_loop, co_yield, Frame.toCtx, Res.same, same_but_junk,
        same_world, World.malloc, hn, ht]
    | block a2 n2 u2 p2 d2 => exact hc.elim
  | block a1 n1 u1 p1 d1 =>
    cases c2 with
    | null p2 d2 => exact hc.elim
    | block a2 n2 u2 p2 d2 =>
      obtain ⟨rfl, rfl, rfl, rfl, rfl, n, rfl, rfl, hi⟩ := hc
      rcases n with _ | n
      · have hi0 : u1.i = u2.i := hi (by omega)
        simp only [coroutine, co_init, hi0]
        cases int_add u2.i 1 with
        | none => trivial
        | some i1 =>
          simp only [coroutine_loop]
          split <;>
            simp [co_yield, co_return, co_free_ctx_eq, Frame.toCtx, Res.same, same_but_junk,
              same_world, co_free_events, co_new_ctx, hn, ht]
      · simp [coroutine, co_init, Res.same]

theorem void_coroutine_same (c1 c2 : co_ctx_t) (w1 w2 : World) (hc : same_but_junk c1 c2)
    (hw : same_world w1 w2) :
    (void_coroutine (some c1) w1).same (void_coroutine (some c2) w2) := by
  obtain ⟨hn, ht⟩ := hw
  cases c1 with
  | null p1 d1 =>
    cases c2 with
    | null p2 d2 =>
      simp [void_coroutine, co_init, void_coroutine_loop, co_yield, Frame.toCtx, Res.same,
        same_but_junk, same_world, World.malloc, World.emit, hn, ht]
    | block a2 n2 u2 p2 d2 => exact hc.elim
  | block a1 n1 u1 p1 d1 =>
    cases c2 with
    | null p2 d2 => exact hc.elim
    | block a2 n2 u2 p2 d2 =>
      obtain ⟨rfl, rfl, rfl, rfl, rfl, n, rfl, rfl, hi⟩ := hc
      rcases n with _ | _ | n
      · simp [void_coroutine, co_init, Res.same]
      · have hi0 : u1.i = u2.i := hi (by omega)
        simp only [void_coroutine, co_init, hi0]
        cases int_add u2.i 1 with
        | none => trivial
        | some i1 =>
          simp only [void_coroutine_loop]
          split <;>
            simp [co_yield, co_return, co_free_ctx_eq, Frame.toCtx, Res.same, same_but_junk,
              same_world, co_free_events, co_new_ctx, World.emit, hn, ht]
      · simp [void_coroutine, co_init, Res.same]

theorem parametrized_coroutine_same (c1 c2 : co_ctx_t) (offset : Int) (w1 w2 : World)
    (hc : same_but_junk c1 c2) (hw : same_world w1 w2) :
    (parametrized_coroutine (some c1) offset w1).same
      (parametrized_coroutine (some c2) offset w2) := by
  obtain ⟨hn, ht⟩ := hw
  cases c1 with
  | null p1 d1 =>
    cases c2 with
    | null p2 d2 =>
      simp only [parametrized_coroutine, co_init, parametrized_coroutine_loop]
      cases int_add 0 offset with
      | none => simp [Res.same]
      | some v =>
        simp [co_yield, Frame.toCtx, Res.same, same_but_junk, same_world, World.malloc, hn, ht]
    | block a2 n2 u2 p2 d2 => exact hc.elim
  | block a1 n1 u1 p1 d1 =>
    cases c2 with
    | null p2 d2 => exact hc.elim
    | block a2 n2 u2 p2 d2 =>
      obtain ⟨rfl, rfl, rfl, rfl, rfl, n, rfl, rfl, hi⟩ := hc
      rcases n with _ | _ | _ | n
      · simp [parametrized_coroutine, co_init, Res.same]
      · simp [parametrized_coroutine, co_init, Res.same]
      · have hi0 : u1.i = u2.i := hi (by omega)
        simp only [parametrized_coroutine, co_init, hi0]
        cases int_add u2.i 1 with
        | none => trivial
        | some i1 =>
          simp only [parametrized_coroutine_loop]
          split
          · cases int_add i1 offset with
            | none => trivial
            | some v =>
              simp [co_yield, Frame.toCtx, Res.same, same_but_junk, same_world, hn, ht]
          · simp [co_return, co_free_ctx_eq, Frame.toCtx, Res.same, same_but_junk,
              same_world, co_free_events, co_new_ctx, hn, ht]
      · simp [parametrized_coroutine, co_init, Res.same]

theorem custom_dtor_coroutine_same (c1 c2 : co_ctx_t) (w1 w2 : World)
    (hc : same_but_junk c1 c2) (hw : same_world w1 w2) :
    (custom_dtor_coroutine (some c1) w1).same (custom_dtor_coroutine (some c2) w2) := by
  obtain ⟨hn, ht⟩ := hw
  cases c1 with
  | null p1 d1 =>
    cases c2 with
    | null p2 d2 =>
      simp [custom_dtor_coroutine, co_init, co_return, co_destructor, co_free_ctx_eq,
        Frame.toCtx, Res.same, same_but_junk, same_world, co_free_events, co_new_ctx,
        call_dtor_events, World.malloc, hn, ht]
    | block a2 n2 u2 p2 d2 => exact hc.elim
  | block a1 n1 u1 p1 d1 =>
    cases c2 with
    | null p2 d2 => exact hc.elim
    | block a2 n2 u2 p2 d2 =>
      obtain ⟨rfl, rfl, rfl, rfl, rfl, n, rfl, rfl, hi⟩ := hc
      simp [custom_dtor_coroutine, co_init, Res.same]

theorem nesting_coroutine_body_same (n : Nat) (fr1 fr2 : Frame) (w1 w2 : World)
    (ha : fr1.addr = fr2.addr) (hn1 : fr1.nested = co_new_ctx) (hn2 : fr2.nested = co_new_ctx)
    (hd1 : fr1.dtor = none) (hd2 : fr2.dtor = none) (h3 : 3 ≤ n) (hw : same_world w1 w2) :
    (nesting_coroutine_body n co_new_ctx fr1 w1).same
      (nesting_coroutine_body n co_new_ctx fr2 w2) := by
  have hv := void_coroutine_same co_new_ctx co_new_ctx w1 w2 trivial hw
  unfold nesting_coroutine_body
  cases hv1 : void_coroutine (some co_new_ctx) w1 with
  | ret v3 c3 w3 =>
    cases hv2 : void_coroutine (some co_new_ctx) w2 with
    | ret v4 c4 w4 =>
      rw [hv1, hv2] at hv
      obtain ⟨_, _, hw34⟩ := hv
      refine ⟨rfl, ?_, hw34⟩
      exact ⟨ha, hn1, hn2, hd1, hd2, n, rfl, rfl, fun h2 => by omega⟩
    | abort w4 => rw [hv1, hv2] at hv; exact hv.elim
    | undefined => rw [hv1, hv2] at hv; exact hv.elim
  | abort w3 =>
    cases hv2 : void_coroutine (some co_new_ctx) w2 with
    | ret v4 c4 w4 => rw [hv1, hv2] at hv; exact hv.elim
    | abort w4 => rw [hv1, hv2] at hv; exact hv
    | undefined => rw [hv1, hv2] at hv; exact hv.elim
  | undefined =>
    cases hv2 : void_coroutine (some co_new_ctx) w2 with
    | ret v4 c4 w4 => rw [hv1, hv2] at hv; exact hv.elim
    | abort w4 => rw [hv1, hv2] at hv; exact hv.elim
    | undefined => trivial

theorem same_world_emit (w1 w2 : World) (e : Event) (hw : same_world w1 w2) :
    same_world (w1.emit e) (w2.emit e) := by
  obtain ⟨hn, ht⟩ := hw
  exact ⟨hn, by simp [World.emit, ht]⟩

theorem same_world_malloc (w1 w2 : World) (hw : same_world w1 w2) :
    same_world w1.malloc w2.malloc := by
  obtain ⟨hn, ht⟩ := hw
  exact ⟨by simp [World.malloc, hn], by simp [World.malloc, hn, ht]⟩

theorem nesting_coroutine_same (c1 c2 : co_ctx_t) (w1 w2 : World) (hc : same_but_junk c1 c2)
    (hw : same_world w1 w2) :
    (nesting_coroutine (some c1) w1).same (nesting_coroutine (some c2) w2) := by
  cases c1 with
  | null p1 d1 =>
    cases c2 with
    | null p2 d2 =>
      simp only [nesting_coroutine, co_init]
      exact nesting_coroutine_body_same 3 _ _ _ _ hw.1 rfl rfl rfl rfl (by omega)
        (same_world_emit _ _ _ (same_world_malloc _ _ hw))
    | block a2 n2 u2 p2 d2 => exact hc.elim
  | block a1 n1 u1 p1 d1 =>
    cases c2 with
    | null p2 d2 => exact hc.elim
    | block a2 n2 u2 p2 d2 =>
      obtain ⟨rfl, rfl, rfl, rfl, rfl, n, rfl, rfl, hi⟩ := hc
      rcases n with _ | _ | _ | _ | _ | n
      · simp [nesting_coroutine, co_init, Res.same]
      · simp [nesting_coroutine, co_init, Res.same]
      · simp [nesting_coroutine, co_init, Res.same]
      · simp only [nesting_coroutine, co_init, co_new_ctx, co_is_running]
        exact nesting_coroutine_body_same 4 _ _ _ _ rfl rfl rfl rfl rfl (by omega)
          (same_world_emit _ _ _ hw)
      · obtain ⟨hn, ht⟩ := hw
        simp [nesting_coroutine, co_init, co_is_running, co_return, co_free_ctx_eq,
          Frame.toCtx, Res.same, same_but_junk, same_world, co_free_events, co_new_ctx, hn, ht]
      · simp [nesting_coroutine, co_init, Res.same]

theorem state_machine_coroutine_same (c1 c2 : co_ctx_t) (event : Int) (w1 w2 : World)
    (hc : same_but_junk c1 c2) (hw : same_world w1 w2) :
    (state_machine_coroutine (some c1) event w1).same
      (state_machine_coroutine (some c2) event w2) := by
  obtain ⟨hn, ht⟩ := hw
  cases c1 with
  | null p1 d1 =>
    cases c2 with
    | null p2 d2 =>
      simp [state_machine_coroutine, co_init, co_yield, Frame.toCtx, Res.same, same_but_junk,
        same_world, World.malloc, World.emit, hn, ht]
    | block a2 n2 u2 p2 d2 => exact hc.elim
  | block a1 n1 u1 p1 d1 =>
    cases c2 with
    | null p2 d2 => exact hc.elim
    | block a2 n2 u2 p2 d2 =>
      obtain ⟨rfl, rfl, rfl, rfl, rfl, n, rfl, rfl, hi⟩ := hc
      rcases n with _ | _ | _ | _ | _ | _ | _ | _ | _ | n
      · simp [state_machine_coroutine, co_init, Res.same]
      · simp [state_machine_coroutine, co_init, Res.same]
      · simp [state_machine_coroutine, co_init, Res.same]
      · simp [state_machine_coroutine, co_init, Res.same]
      · simp [state_machine_coroutine, co_init, Res.same]
      · simp [state_machine_coroutine, co_init, state_machine_coroutine_loop, co_yield,
          Frame.toCtx, Res.same, same_but_junk, same_world, World.emit, co_new_ctx, hn, ht]
      · by_cases he : event = 0 <;>
          simp [state_machine_coroutine, co_init, co_yield, Frame.toCtx, Res.same,
            same_but_junk, same_world, World.emit, co_new_ctx, hn, ht, he]
      · simp [state_machine_coroutine, co_init, co_return, co_free_ctx_eq, Frame.toCtx,
          Res.same, same_but_junk, same_world, World.emit, co_free_events, co_new_ctx, hn, ht]
      · simp [state_machine_coroutine, co_init, state_machine_coroutine_loop, co_yield,
          Frame.toCtx, Res.same, same_but_junk, same_world, World.emit, co_new_ctx, hn, ht]
      · simp [state_machine_coroutine, co_init, Res.same]

theorem same_mapValue {α β : Type} (g : α → β) (r1 r2 : Res α) (h : r1.same r2) :
    (r1.mapValue g).same (r2.mapValue g) := by
  cases r1 <;> cases r2 <;> simp_all [Res.same, Res.mapValue]

theorem resume_same (f : Fn) (arg : Int) (c1 c2 : co_ctx_t) (w1 w2 : World)
    (hc : same_but_junk c1 c2) (hw : same_world w1 w2) :
    (resume f arg (some c1) w1).same (resume f arg (some c2) w2) := by
  cases f <;> simp only [resume] <;> apply same_mapValue
  · exact coroutine_same c1 c2 w1 w2 hc hw
  · exact void_coroutine_same c1 c2 w1 w2 hc hw
  · exact parametrized_coroutine_same c1 c2 arg w1 w2 hc hw
  · exact custom_dtor_coroutine_same c1 c2 w1 w2 hc hw
  · exact nesting_coroutine_same c1 c2 w1 w2 hc hw
  · exact state_machine_coroutine_same c1 c2 arg w1 w2 hc hw

theorem co_free_ctx_same (c1 c2 : co_ctx_t) (w1 w2 : World) (hc : same_but_junk c1 c2)
    (hw : same_world w1 w2) :
    same_but_junk (co_free_ctx c1 w1).1 (co_free_ctx c2 w2).1 ∧
      same_world (co_free_ctx c1 w1).2 (co_free_ctx c2 w2).2 := by
  obtain ⟨hn, ht⟩ := hw
  cases c1 with
  | null p1 d1 =>
    cases c2 with
    | null p2 d2 => exact ⟨trivial, hn, ht⟩
    | block a2 n2 u2 p2 d2 => exact hc.elim
  | block a1 n1 u1 p1 d1 =>
    cases c2 with
    | null p2 d2 => exact hc.elim
    | block a2 n2 u2 p2 d2 =>
      obtain ⟨rfl, rfl, rfl, rfl, rfl, _⟩ := hc
      simp [co_free_ctx_eq, same_but_junk, same_world, co_free_events, co_new_ctx, hn, ht]

theorem co_is_running_same (c1 c2 : co_ctx_t) (hc : same_but_junk c1 c2) :
    co_is_running (some c1) = co_is_running (some c2) := by
  cases c1 <;> cases c2 <;> first | rfl | exact hc.elim

theorem run_same (ops : List Op) (c1 c2 : co_ctx_t) (w1 w2 : World)
    (hc : same_but_junk c1 c2) (hw : same_world w1 w2) : run ops c1 w1 = run ops c2 w2 := by
  induction ops generalizing c1 c2 w1 w2 with
  | nil => simp [run, hw.2]
  | cons op ops ih =>
    cases op with
    | resume f arg =>
      have hr := resume_same f arg c1 c2 w1 w2 hc hw
      simp only [run]
      cases h1 : resume f arg (some c1) w1 with
      | ret v3 c3 w3 =>
        cases h2 : resume f arg (some c2) w2 with
        | ret v4 c4 w4 =>
          rw [h1, h2] at hr
          obtain ⟨rfl, hc34, hw34⟩ := hr
          simp only [ih c3 c4 w3 w4 hc34 hw34]
        | abort w4 => rw [h1, h2] at hr; exact hr.elim
        | undefined => rw [h1, h2] at hr; exact hr.elim
      | abort w3 =>
        cases h2 : resume f arg (some c2) w2 with
        | ret v4 c4 w4 => rw [h1, h2] at hr; exact hr.elim
        | abort w4 =>
          rw [h1, h2] at hr
          have hr2 : w3.trace = w4.trace := hr
          simp only [hr2]
        | undefined => rw [h1, h2] at hr; exact hr.elim
      | undefined =>
        cases h2 : resume f arg (some c2) w2 with
        | ret v4 c4 w4 => rw [h1, h2] at hr; exact hr.elim
        | abort w4 => rw [h1, h2] at hr; exact hr.elim
        | undefined => simp only [hw.2]
    | free =>
      obtain ⟨hc3, hw3⟩ := co_free_ctx_same c1 c2 w1 w2 hc hw
      simp only [run]
      exact ih _ _ _ _ hc3 hw3
    | is_running =>
      simp only [run, ih c1 c2 w1 w2 hc hw, co_is_running_same c1 c2 hc]

/-- C19. Two runs of the same sequence of operations (calls of the six example
coroutines with any arguments, `co_free`, `co_is_running`) from fresh contexts,
in worlds that differ only in what freshly allocated memory holds, give the
same returned values and liveness answers after every call and the same trace,
printed lines included. -/
theorem junk_independent (ops : List Op) (w : World) (junk1 junk2 : Nat → Locals) :
    run ops co_new_ctx { w with junk := junk1 } = run ops co_new_ctx { w with junk := junk2 } ∧
      printed (run ops co_new_ctx { w with junk := junk1 }).2 =
        printed (run ops co_new_ctx { w with junk := junk2 }).2 := by
  have h := run_same ops co_new_ctx co_new_ctx { w with junk := junk1 } { w with junk := junk2 }
    trivial ⟨rfl, rfl⟩
  exact ⟨h, by rw [h]⟩

theorem void_step (k : Nat) (c : co_ctx_t) (w : World) (hc : void_at k c) (hk : k ≤ 10) :
    ∃ c1 w1, void_coroutine (some c) w = .ret () c1 w1 ∧ void_at ((k + 1) % 11) c1 := by
  cases c with
  | null p d =>
    have h0 : k = 0 := hc
    subst h0
    exact ⟨_, _, rfl, ⟨by decide, by decide, rfl, rfl⟩⟩
  | block addr nested user p d =>
    obtain ⟨h1, _, hi, hp⟩ := hc
    have hadd : int_add user.i 1 = some (k : Int) := by
      unfold int_add INT_MIN INT_MAX
      rw [if_pos (by omega)]
      congr 1
      omega
    by_cases hlt : k < 10
    · have hlt2 : (k : Int) < 10 := by omega
      refine ⟨.block addr nested { user with i := (k : Int) } (some (.yield 1)) d,
        w.emit (.printf ("void_coroutine: " ++ toString (k : Int))), ?_, ?_⟩
      · simp [void_coroutine, co_init, hp, hadd, void_coroutine_loop, hlt2, co_yield,
          Frame.toCtx]
      · rw [Nat.mod_eq_of_lt (by omega)]
        exact ⟨by omega, by omega, by push_cast; omega, rfl⟩
    · have h10 : k = 10 := by omega
      subst h10
      refine ⟨(co_free_ctx (.block addr nested { user with i := 10 } (some (.yield 1)) d) w).1,
        (co_free_ctx (.block addr nested { user with i := 10 } (some (.yield 1)) d) w).2,
        ?_, ?_⟩
      · simp [void_coroutine, co_init, hp, hadd, void_coroutine_loop, co_return, Frame.toCtx]
      · simp [co_free_ctx_eq, void_at]

theorem nesting_coroutine_returns (c : co_ctx_t) (w : World)
    (hc : suspended_in .nesting_coroutine c) :
    ∃ c1 w1, nesting_coroutine (some c) w = .ret () c1 w1 := by
  cases c with
  | null p d => exact ⟨_, _, rfl⟩
  | block addr nested user p d =>
    obtain ⟨rfl, rfl, n, hn, rfl⟩ := hc
    simp only [yield_sites, List.mem_cons, List.mem_singleton, List.not_mem_nil, or_false] at hn
    rcases hn with rfl | rfl <;> exact ⟨_, _, rfl⟩

theorem ready_resume (f : Fn) (arg : Int) (c : co_ctx_t) (w : World) (hc : ready f c)
    (harg : f = .parametrized_coroutine → INT_MIN ≤ arg ∧ arg + 9 ≤ INT_MAX) :
    ∃ v c1 w1, resume f arg (some c) w = .ret v c1 w1 ∧ ready f c1 := by
  cases f with
  | coroutine =>
    obtain ⟨k, hk, hat⟩ := hc
    obtain ⟨c1, w1, h, hat1, _⟩ := coroutine_step k c w hat hk
    exact ⟨_, c1, w1, by simp only [resume, h]; rfl, (k + 1) % 11, by omega, hat1⟩
  | void_coroutine =>
    obtain ⟨k, hk, hat⟩ := hc
    obtain ⟨c1, w1, h, hat1⟩ := void_step k c w hat hk
    exact ⟨_, c1, w1, by simp only [resume, h]; rfl, (k + 1) % 11, by omega, hat1⟩
  | parametrized_coroutine =>
    obtain ⟨k, hk, hat⟩ := hc
    obtain ⟨h1, h2⟩ := harg rfl
    obtain ⟨c1, w1, h, hat1, _⟩ := parametrized_step k arg c w hat hk
      (fun hlt => ⟨by omega, by omega⟩)
    exact ⟨_, c1, w1, by simp only [resume, h]; rfl, (k + 1) % 11, by omega, hat1⟩
  | custom_dtor_coroutine =>
    cases c with
    | null p d =>
      exact ⟨_, _, _, rfl, rfl⟩
    | block addr nested user p d => simp [ready, co_is_running] at hc
  | nesting_coroutine =>
    obtain ⟨c1, w1, h⟩ := nesting_coroutine_returns c w hc
    exact ⟨_, c1, w1, by simp only [resume, h]; rfl,
      (nesting_coroutine_suspended c w (suspended_in_tidy hc) () c1 w1 h).1⟩
  | state_machine_coroutine =>
    obtain ⟨s, hs⟩ := hc
    obtain ⟨c1, w1, h, hs1, _⟩ := state_machine_step s arg c w w hs rfl
    exact ⟨_, c1, w1, by simp only [resume, h]; rfl, _, hs1⟩

theorem ready_step (f : Fn) (op : Op) (c : co_ctx_t) (w : World) (hc : ready f c)
    (hop : ∀ g arg, op = .resume g arg →
      g = f ∧ (f = .parametrized_coroutine → INT_MIN ≤ arg ∧ arg + 9 ≤ INT_MAX)) :
    ∃ c1 w1, step op c w = some (c1, w1) ∧ ready f c1 := by
  cases op with
  | resume g arg =>
    obtain ⟨hg, harg⟩ := hop g arg rfl
    subst hg
    obtain ⟨v, c1, w1, h, hr⟩ := ready_resume g arg c w hc harg
    exact ⟨c1, w1, by simp only [step, h], hr⟩
  | free =>
    refine ⟨_, _, rfl, ?_⟩
    rw [co_free_ctx_eq]
    cases f with
    | coroutine => exact ⟨0, by omega, rfl⟩
    | void_coroutine => exact ⟨0, by omega, rfl⟩
    | parametrized_coroutine => exact ⟨0, by omega, rfl⟩
    | custom_dtor_coroutine => rfl
    | nesting_coroutine => trivial
    | state_machine_coroutine => exact ⟨0, rfl⟩
  | is_running => exact ⟨c, w, rfl, hc⟩

theorem ready_new (f : Fn) : ready f co_new_ctx := by
  cases f with
  | coroutine => exact ⟨0, by omega, rfl⟩
  | void_coroutine => exact ⟨0, by omega, rfl⟩
  | parametrized_coroutine => exact ⟨0, by omega, rfl⟩
  | custom_dtor_coroutine => rfl
  | nesting_coroutine => trivial
  | state_machine_coroutine => exact ⟨0, rfl⟩

theorem ready_after (f : Fn) (ops : List Op) (c : co_ctx_t) (w : World) (hc : ready f c)
    (hops : ∀ op ∈ ops, ∀ g arg, op = .resume g arg →
      g = f ∧ (f = .parametrized_coroutine → INT_MIN ≤ arg ∧ arg + 9 ≤ INT_MAX)) :
    ∃ c1 w1, after ops c w = some (c1, w1) ∧ ready f c1 := by
  induction ops generalizing c w with
  | nil => exact ⟨c, w, rfl, hc⟩
  | cons op ops ih =>
    obtain ⟨c1, w1, hs, hr⟩ := ready_step f op c w hc (hops op (List.mem_cons_self _ _))
    obtain ⟨c2, w2, ha, hr2⟩ := ih c1 w1 hr (fun op1 hm => hops op1 (List.mem_cons_of_mem _ hm))
    exact ⟨c2, w2, by simp only [after, hs, ha], hr2⟩

theorem parametrized_kept (k : Nat) (o : Int) (c : co_ctx_t) (w : World) (v : Int)
    (c1 : co_ctx_t) (w1 : World) (hc : parametrized_at k c) (hk : k ≤ 10)
    (h : parametrized_coroutine (some c) o w = .ret v c1 w1) :
    parametrized_at ((k + 1) % 11) c1 := by
  by_cases hov : k < 10 → INT_MIN ≤ (k : Int) + o ∧ (k : Int) + o ≤ INT_MAX
  · obtain ⟨c2, w2, h2, hat, _⟩ := parametrized_step k o c w hc hk hov
    rw [h2] at h
    simp only [Res.ret.injEq] at h
    rw [← h.2.1]
    exact hat
  · have hlt : k < 10 := by
      by_contra hge
      exact hov (fun hlt => absurd hlt hge)
    have hnone : int_add (k : Int) o = none := by
      unfold int_add
      rw [if_neg (fun hr => hov (fun _ => hr))]
    exfalso
    cases c with
    | null p d =>
      have h0 : k = 0 := hc
      subst h0
      simp [parametrized_coroutine, co_init, parametrized_coroutine_loop] at h
      simp at hnone
      rw [hnone] at h
      cases h
    | block addr nested user p d =>
      obtain ⟨h1, _, hi, hp⟩ := hc
      have hadd : int_add user.i 1 = some (k : Int) := by
        unfold int_add INT_MIN INT_MAX
        rw [if_pos (by omega)]
        congr 1
        omega
      have hlt2 : (k : Int) < 10 := by omega
      simp [parametrized_coroutine, co_init, hp, hadd, parametrized_coroutine_loop, hlt2,
        hnone] at h

theorem ready_kept (f : Fn) (op : Op) (c : co_ctx_t) (w : World) (c1 : co_ctx_t) (w1 : World)
    (hc : ready f c) (hop : ∀ g arg, op = .resume g arg → g = f)
    (h : step op c w = some (c1, w1)) : ready f c1 := by
  by_cases hp : ∃ arg, op = .resume .parametrized_coroutine arg
  · obtain ⟨arg, rfl⟩ := hp
    have hf : Fn.parametrized_coroutine = f := hop _ arg rfl
    subst hf
    obtain ⟨k, hk, hat⟩ := hc
    simp only [step, resume] at h
    cases hr : parametrized_coroutine (some c) arg w with
    | ret v c2 w2 =>
      rw [hr] at h
      simp only [Res.mapValue, Option.some.injEq, Prod.mk.injEq] at h
      obtain ⟨rfl, rfl⟩ := h
      exact ⟨(k + 1) % 11, by omega, parametrized_kept k arg c w v c2 w2 hat hk hr⟩
    | abort w2 => rw [hr] at h; cases h
    | undefined => rw [hr] at h; cases h
  · obtain ⟨c2, w2, h2, hr⟩ := ready_step f op c w hc (fun g arg he => by
      have hg := hop g arg he
      refine ⟨hg, fun hf => ?_⟩
      exact absurd ⟨arg, by rw [he, hg, hf]⟩ hp)
    rw [h2] at h
    simp only [Option.some.injEq, Prod.mk.injEq] at h
    rw [← h.1]
    exact hr

theorem after_ready (f : Fn) (ops : List Op) (c : co_ctx_t) (w : World) (c1 : co_ctx_t)
    (w1 : World) (hc : ready f c) (hops : ∀ op ∈ ops, ∀ g arg, op = .resume g arg → g = f)
    (h : after ops c w = some (c1, w1)) : ready f c1 := by
  induction ops generalizing c w with
  | nil =>
    simp only [after, Option.some.injEq, Prod.mk.injEq] at h
    obtain ⟨rfl, _⟩ := h
    exact hc
  | cons op ops ih =>
    simp only [after] at h
    cases hs : step op c w with
    | none => rw [hs] at h; cases h
    | some r =>
      obtain ⟨c2, w2⟩ := r
      rw [hs] at h
      exact ih c2 w2 (ready_kept f op c w c2 w2 hc (hops op (List.mem_cons_self _ _)) hs)
        (fun op1 hm => hops op1 (List.mem_cons_of_mem _ hm)) h

/-- C17. For each example coroutine `f`: in every context reached from a fresh
context by calls of `f` (with any arguments), `co_free` and `co_is_running`,
an active context has as saved `__ptr` one of the `co_yield` labels of `f`, so
a label of the body of `f`; and the `__ptr` that `co_init` of `f` then jumps to
(the saved one, or `&&__begin` after allocating) is a label of the body of
`f`.  The next call of `f` then returns, for any argument (for
`parametrized_coroutine`: any offset from `INT_MIN` to `INT_MAX - 9`, so that
the sum it yields is an `int`). -/
theorem resume_point_valid (f : Fn) (ops : List Op) (w : World) (c : co_ctx_t) (w1 : World)
    (hops : ∀ op ∈ ops, ∀ g arg, op = .resume g arg → g = f)
    (h : after ops co_new_ctx w = some (c, w1)) :
    (co_is_running (some c) = true →
        (∃ n, n ∈ yield_sites f ∧ c.ptr = some (.yield n)) ∧ ∃ l, l ∈ labels f ∧ c.ptr = some l) ∧
      (∃ fr w2 l, co_init f (some c) w1 = some (fr, w2) ∧ l ∈ labels f ∧ fr.ptr = some l) ∧
      ∀ arg, (f = .parametrized_coroutine → INT_MIN ≤ arg ∧ arg + 9 ≤ INT_MAX) →
        ∃ v c2 w2, resume f arg (some c) w1 = .ret v c2 w2 := by
  have hs := after_suspended f ops co_new_ctx w c w1 trivial hops h
  have hr := after_ready f ops co_new_ctx w c w1 (ready_new f) hops h
  have hret : ∀ arg, (f = .parametrized_coroutine → INT_MIN ≤ arg ∧ arg + 9 ≤ INT_MAX) →
      ∃ v c2 w2, resume f arg (some c) w1 = .ret v c2 w2 := fun arg harg => by
    obtain ⟨v, c2, w2, h2, _⟩ := ready_resume f arg c w1 hr harg
    exact ⟨v, c2, w2, h2⟩
  cases c with
  | null p d =>
    refine ⟨fun hr => by simp [co_is_running] at hr, ⟨_, _, .begin f, rfl, ?_, rfl⟩, hret⟩
    simp [labels]
  | block addr nested user p d =>
    obtain ⟨_, _, n, hn, hp⟩ := hs
    have hl : Label.yield n ∈ labels f := by
      simp only [labels, List.mem_cons, List.mem_map]
      exact Or.inr ⟨n, hn, rfl⟩
    exact ⟨fun _ => ⟨⟨n, hn, hp⟩, .yield n, hl, hp⟩, ⟨_, _, .yield n, rfl, hl, hp⟩, hret⟩

theorem resume_point_valid_witness :
    ((∀ op ∈ [Op.resume .nesting_coroutine 0, .resume .nesting_coroutine 0, .is_running],
        ∀ g arg, op = .resume g arg → g = .nesting_coroutine) ∧
      after [Op.resume .nesting_coroutine 0, .resume .nesting_coroutine 0, .is_running]
          co_new_ctx (World.init fun _ => ⟨0, none⟩) =
        some (.block 0 co_new_ctx ⟨0, none⟩ (some (.yield 4)) none,
          { next := 3, junk := fun _ => ⟨0, none⟩,
            trace := [.malloc 0, .printf "First nested coroutine", .malloc 1,
              .printf "void_coroutine: 0", .printf "Second nested coroutine", .malloc 2,
              .printf "void_coroutine: 0"] })) ∧
      (co_is_running (some (.block 0 co_new_ctx ⟨0, none⟩ (some (.yield 4)) none)) = true →
        (∃ n, n ∈ yield_sites .nesting_coroutine ∧
          (co_ctx_t.block 0 co_new_ctx ⟨0, none⟩ (some (.yield 4)) none).ptr =
            some (.yield n)) ∧
        ∃ l, l ∈ labels .nesting_coroutine ∧
          (co_ctx_t.block 0 co_new_ctx ⟨0, none⟩ (some (.yield 4)) none).ptr = some l) :=
  have hops : ∀ op ∈ [Op.resume .nesting_coroutine 0, .resume .nesting_coroutine 0, .is_running],
      ∀ g arg, op = .resume g arg → g = .nesting_coroutine := by
    intro op hm g arg he
    subst he
    simp at hm
    exact hm.1
  ⟨⟨hops, rfl⟩,
    (resume_point_valid .nesting_coroutine
      [.resume .nesting_coroutine 0, .resume .nesting_coroutine 0, .is_running]
      (World.init fun _ => ⟨0, none⟩) _ _ hops rfl).1⟩

end Coro
